import Mathlib

/-!
Verification of the conversation-export normalization core of the
AI-Chat-Export repository (package `conversation_to_md`).

The Python sources are shallowly embedded:

* JSON/Python values are modelled by the mutual inductive `PyVal`
  (`None`, `bool`, `int`, `str`, `list`, `dict` with string keys, which is
  what `json.load` produces).  Floating point numbers are not modelled;
  numeric JSON literals are embedded as integers.
* Python exceptions are modelled by `Except PyErr`; a `try/except` clause
  of the source is translated to an explicit match on the error.
* Functions of the CPython standard library used by the sources
  (`str.strip`, `str.lower`, `float(...)`, `datetime.fromtimestamp`,
  `datetime.fromisoformat`, `html.unescape`, `json.dumps`) are modelled by
  executable Lean functions; each carries a doc comment describing the
  modelled behaviour and its (documented) restrictions.
* The filesystem is abstracted away: an adapter is embedded at the level
  of the JSON values obtained from its files, and the source detector at
  the level of a list of (relative path, file data) pairs.
-/

/-- Python exception classes that the embedded code can raise or catch. -/
inductive PyErr where
  | attributeError
  | typeError
  | valueError
  | osError
  | overflowError
  | keyError
deriving DecidableEq, Repr

mutual
/-- A Python value as produced by `json.load`: `None`, `bool`, `int`,
`str`, `list`, or `dict` with string keys.  (Floats are not modelled.) -/
inductive PyVal where
  | none
  | bool (b : Bool)
  | int (n : Int)
  | str (s : String)
  | list (xs : PyList)
  | dict (fields : PyFields)
/-- A list of Python values (spine of `PyVal.list`). -/
inductive PyList where
  | nil
  | cons (hd : PyVal) (tl : PyList)
/-- The ordered key/value pairs of a Python dict (insertion order, as
CPython dicts preserve it). -/
inductive PyFields where
  | nil
  | cons (k : String) (v : PyVal) (tl : PyFields)
end

def PyList.ofList : List PyVal → PyList
  | [] => .nil
  | x :: xs => .cons x (PyList.ofList xs)

def PyList.toList : PyList → List PyVal
  | .nil => []
  | .cons x xs => x :: xs.toList

def PyFields.ofList : List (String × PyVal) → PyFields
  | [] => .nil
  | (k, v) :: xs => .cons k v (PyFields.ofList xs)

def PyFields.toList : PyFields → List (String × PyVal)
  | .nil => []
  | .cons k v xs => (k, v) :: xs.toList

/-- Convenience constructor: a Python list literal. -/
def PyVal.l (xs : List PyVal) : PyVal := .list (PyList.ofList xs)

/-- Convenience constructor: a Python dict literal. -/
def PyVal.d (fs : List (String × PyVal)) : PyVal := .dict (PyFields.ofList fs)

/-- ASCII lowercasing of one character (the sources only compare ASCII
role/marker strings). -/
def charLower (c : Char) : Char :=
  if 'A' ≤ c ∧ c ≤ 'Z' then Char.ofNat (c.toNat + 32) else c

/-- Python `str.lower()` (ASCII range; the compared markers and roles
are ASCII). -/
def pyLower (s : String) : String :=
  String.mk (s.toList.map charLower)

/-- Whitespace characters stripped by Python `str.strip()`. -/
def isPySpace (c : Char) : Bool :=
  c = ' ' || c = '\t' || c = '\n' || c = '\r' || c = '\x0b' || c = '\x0c'

/-- Python `str.strip()`. -/
def pyStrip (s : String) : String :=
  String.mk (((s.toList.dropWhile isPySpace).reverse.dropWhile isPySpace).reverse)

/-- Code-point comparison of characters as a Bool. -/
def charLt (a b : Char) : Bool := Nat.blt a.toNat b.toNat

/-- Lexicographic order on char lists. -/
def listLtChar : List Char → List Char → Bool
  | [], [] => false
  | [], _ :: _ => true
  | _ :: _, [] => false
  | a :: as, b :: bs => if charLt a b then true else if charLt b a then false else listLtChar as bs

/-- Python `<` on strings (lexicographic by code point). -/
def pyStrLt (a b : String) : Bool := listLtChar a.toList b.toList

/-- Whether `pat` occurs in `l` (empty pattern always occurs). -/
def listContains (pat : List Char) : List Char → Bool
  | [] => pat.isEmpty
  | c :: rest => List.isPrefixOf pat (c :: rest) || listContains pat rest

/-- Substring test, Python `needle in haystack` on strings. -/
def containsSubstr (haystack needle : String) : Bool :=
  listContains needle.toList haystack.toList

/-- One replacement pass with explicit fuel (`fuel` starts at the text
length, and each step consumes at least one character, so the fuel
never runs out). -/
def replaceGo (pat rep : List Char) : Nat → List Char → List Char
  | 0, l => l
  | _ + 1, [] => []
  | fuel + 1, c :: rest =>
      if pat.isPrefixOf (c :: rest) && !pat.isEmpty then
        rep ++ replaceGo pat rep fuel ((c :: rest).drop pat.length)
      else c :: replaceGo pat rep fuel rest

/-- Python `str.replace(pat, rep)` (all occurrences, left to right; an
empty pattern leaves the string unchanged, a benign restriction of the
model since the sources never pass one). -/
def pyReplace (s pat rep : String) : String :=
  String.mk (replaceGo pat.toList rep.toList s.toList.length s.toList)

/-- Python `str.endswith(suffix)`. -/
def pyEndswith (s suffix : String) : Bool :=
  List.isSuffixOf suffix.toList s.toList

/-- `sep.join(parts)` for string parts. -/
def joinWith (sep : String) : List String → String
  | [] => ""
  | [x] => x
  | x :: rest => x ++ sep ++ joinWith sep rest


/-! ## `normalize.strip_html`, `clean_content`, `sanitize_id` -/

/-- Python truthiness: `None`, `False`, `0`, `""`, `[]`, `{}` are falsy. -/
def pyTruthy : PyVal → Bool
  | .none => false
  | .bool b => b
  | .int n => n != 0
  | .str s => !s.isEmpty
  | .list .nil => false
  | .list _ => true
  | .dict .nil => false
  | .dict _ => true

/-- Python `a or b` (short-circuiting on truthiness, returning a value). -/
def pyOr (a b : PyVal) : PyVal := if pyTruthy a then a else b

/-- First value bound to key `k` in the dict fields (CPython dicts have
unique keys, so this is the value of `k` when present). -/
def pyLookup (fs : PyFields) (k : String) : Option PyVal :=
  List.lookup k fs.toList

/-- Python `d.get(k, default)`.  Raises `AttributeError` when the receiver
is not a dict, exactly as CPython does for `.get` on a non-dict. -/
def pyGetD (v : PyVal) (k : String) (dflt : PyVal) : Except PyErr PyVal :=
  match v with
  | .dict fs => .ok ((pyLookup fs k).getD dflt)
  | _ => .error .attributeError

/-- Python `k in d` for a dict receiver (all uses in the sources are
guarded by an `isinstance(…, dict)` check). -/
def pyContainsKey (v : PyVal) (k : String) : Bool :=
  match v with
  | .dict fs => (pyLookup fs k).isSome
  | _ => false

/-- Python `d[k]` on a dict receiver (raises `KeyError` when absent). -/
def pySubscript (v : PyVal) (k : String) : Except PyErr PyVal :=
  match v with
  | .dict fs =>
      match pyLookup fs k with
      | some w => .ok w
      | Option.none => .error .keyError
  | _ => .error .typeError

def PyVal.isDict : PyVal → Bool
  | .dict _ => true
  | _ => false

def PyVal.isList : PyVal → Bool
  | .list _ => true
  | _ => false

/-- Python iteration `for x in v`: lists yield elements, strings yield
one-character strings, dicts yield their keys; other values raise
`TypeError`. -/
def pyIter : PyVal → Except PyErr (List PyVal)
  | .list xs => .ok xs.toList
  | .str s => .ok (s.toList.map (fun c => .str (String.singleton c)))
  | .dict fs => .ok (fs.toList.map (fun kv => .str kv.1))
  | _ => .error .typeError

/-- Python `v.lower()`: defined on strings only, `AttributeError`
otherwise. -/
def pyLowerE : PyVal → Except PyErr String
  | .str s => .ok (pyLower s)
  | _ => .error .attributeError

/-- Python `v.startswith(p)`: defined on strings only. -/
def pyStartswithE (v : PyVal) (p : String) : Except PyErr Bool :=
  match v with
  | .str s => .ok (List.isPrefixOf p.toList s.toList)
  | _ => .error .attributeError

/-- A string wrapped in single quotes, as CPython `repr` renders it
(escaping not modelled). -/
def pyQuote (s : String) : String :=
  String.singleton (Char.ofNat 39) ++ s ++ String.singleton (Char.ofNat 39)

mutual
/-- Python `repr` restricted to the modelled values (`repr(None)`,
`repr(True)`, ints, quoted strings, lists, dicts).  String escaping is
not modelled; strings are wrapped in single quotes verbatim. -/
def pyRepr : PyVal → String
  | PyVal.none => "None"
  | .bool b => if b then "True" else "False"
  | .int n => toString n
  | .str s => pyQuote s
  | .list xs => "[" ++ pyReprList xs ++ "]"
  | .dict fs => "\x7b" ++ pyReprFields fs ++ "\x7d"
def pyReprList : PyList → String
  | .nil => ""
  | .cons x .nil => pyRepr x
  | .cons x tl => pyRepr x ++ ", " ++ pyReprList tl
def pyReprFields : PyFields → String
  | .nil => ""
  | .cons k v .nil => pyQuote k ++ ": " ++ pyRepr v
  | .cons k v tl => pyQuote k ++ ": " ++ pyRepr v ++ ", " ++ pyReprFields tl
end

/-- Python `str(v)`: identity on strings, `repr`-like rendering
otherwise (matching `str` = `repr` on the non-string modelled values). -/
def pyStr : PyVal → String
  | .str s => s
  | v => pyRepr v

/-- JSON string escaping, modelled only for backslash and double
quote. -/
def jsonEscape (s : String) : String :=
  String.mk (s.toList.flatMap (fun c =>
    if c = '\\' then ['\\', '\\'] else if c = '"' then ['\\', '"'] else [c]))

mutual
/-- `json.dumps` with its default separators (`", "` and `": "`).
String escaping is modelled only for the backslash and the double
quote. -/
def pyJsonDumps : PyVal → String
  | PyVal.none => "null"
  | .bool b => if b then "true" else "false"
  | .int n => toString n
  | .str s => "\"" ++ jsonEscape s ++ "\""
  | .list xs => "[" ++ pyJsonDumpsList xs ++ "]"
  | .dict fs => "\x7b" ++ pyJsonDumpsFields fs ++ "\x7d"
def pyJsonDumpsList : PyList → String
  | .nil => ""
  | .cons x .nil => pyJsonDumps x
  | .cons x tl => pyJsonDumps x ++ ", " ++ pyJsonDumpsList tl
def pyJsonDumpsFields : PyFields → String
  | .nil => ""
  | .cons k v .nil => "\"" ++ jsonEscape k ++ "\": " ++ pyJsonDumps v
  | .cons k v tl => "\"" ++ jsonEscape k ++ "\": " ++ pyJsonDumps v ++ ", " ++ pyJsonDumpsFields tl
end

mutual
/-- Python `==` on the modelled values: numeric cross-equality between
`bool` and `int` (`True == 1`), structural equality on containers, and
`False` across different (non-numeric) types. -/
def pyEqV : PyVal → PyVal → Bool
  | PyVal.none, PyVal.none => true
  | .bool a, .bool b => a == b
  | .bool a, .int n => (if a then (1 : Int) else 0) == n
  | .int n, .bool a => (if a then (1 : Int) else 0) == n
  | .int a, .int b => a == b
  | .str a, .str b => a == b
  | .list xs, .list ys => pyEqL xs ys
  | .dict xs, .dict ys => pyEqD xs ys
  | _, _ => false
def pyEqL : PyList → PyList → Bool
  | .nil, .nil => true
  | .cons x xs, .cons y ys => pyEqV x y && pyEqL xs ys
  | _, _ => false
def pyEqD : PyFields → PyFields → Bool
  | .nil, .nil => true
  | .cons k v tl, .cons k2 v2 tl2 => k == k2 && pyEqV v v2 && pyEqD tl tl2
  | _, _ => false
end

/-- Python hashability of the modelled values: lists and dicts are
unhashable (using one as a dict key raises `TypeError`). -/
def pyHashable : PyVal → Bool
  | .list _ => false
  | .dict _ => false
  | _ => true

/-! ## Datetime model (CPython `datetime`, restricted) -/

/-- A `datetime` instant: seconds since the Unix epoch, plus whether the
object is timezone-aware.  Sub-second precision is not modelled. -/
structure PyDateTime where
  epoch : Int
  aware : Bool
deriving DecidableEq, Repr

/-- Smallest timestamp representable by `datetime` (year 1). -/
def DATETIME_MIN_TS : Int := -62135596800

/-- Largest timestamp representable by `datetime` (year 9999). -/
def DATETIME_MAX_TS : Int := 253402300799

/-- `datetime.fromtimestamp(x, tz=timezone.utc)`: an aware UTC instant for
an in-range timestamp, `ValueError` outside the year range 1–9999. -/
def fromtimestampUtc (x : Int) : Except PyErr PyDateTime :=
  if DATETIME_MIN_TS ≤ x ∧ x ≤ DATETIME_MAX_TS then .ok ⟨x, true⟩
  else .error .valueError

/-- Decimal digit run to a natural number (`none` when empty or when a
non-digit occurs). -/
def parseDecDigits (l : List Char) : Option Nat :=
  if l.isEmpty then Option.none
  else l.foldl (fun acc? c =>
    acc?.bind (fun acc => if c.isDigit then some (acc * 10 + (c.toNat - 48)) else Option.none))
    (some 0)

/-- An optionally signed decimal integer literal. -/
def parseDecInt (s : String) : Option Int :=
  match s.toList with
  | '+' :: rest => (parseDecDigits rest).map Int.ofNat
  | '-' :: rest => (parseDecDigits rest).map (fun n => -(Int.ofNat n))
  | l => (parseDecDigits l).map Int.ofNat

/-- CPython `float(v)`, restricted to integer-valued results (the sources
only ever feed it JSON numbers or strings).  An int of magnitude at least
`2^1024` does not fit in a double and raises `OverflowError`; `bool` is a
numeric subtype; a string is parsed as an (optionally signed) decimal
integer literal (fractional/exponent forms are outside the model) and
raises `ValueError` when it does not parse; other values raise
`TypeError`.  Rounding of in-range values is not modelled. -/
def pyFloatConv : PyVal → Except PyErr Int
  | .int n => if n.natAbs < 2 ^ 1024 then .ok n else .error .overflowError
  | .bool b => .ok (if b then 1 else 0)
  | .str s =>
      match parseDecInt (pyStrip s) with
      | some n => .ok n
      | Option.none => .error .valueError
  | _ => .error .typeError

/-- `normalize.unix_to_datetime`: `None` passes through; otherwise
`datetime.fromtimestamp(float(timestamp), tz=timezone.utc)` with
`ValueError`, `TypeError` and `OSError` caught (note: `OverflowError`
is **not** in the except clause and propagates). -/
def unix_to_datetime (timestamp : PyVal) : Except PyErr (Option PyDateTime) :=
  match timestamp with
  | PyVal.none => .ok Option.none
  | v =>
      match pyFloatConv v with
      | .error e =>
          if e = .valueError ∨ e = .typeError ∨ e = .osError then .ok Option.none
          else .error e
      | .ok x =>
          match fromtimestampUtc x with
          | .error e =>
              if e = .valueError ∨ e = .typeError ∨ e = .osError then .ok Option.none
              else .error e
          | .ok dt => .ok (some dt)

/-- Days from the civil epoch 1970-01-01 for a Gregorian date (the
standard days-from-civil algorithm; divisions are C-style truncating
divisions, applied to non-negative operands only). -/
def daysFromCivil (y m d : Int) : Int :=
  let y1 : Int := if m ≤ 2 then y - 1 else y
  let era : Int := (if 0 ≤ y1 then y1 else y1 - 399) / 400
  let yoe : Int := y1 - era * 400
  let doy : Int := (153 * (m + (if 2 < m then -3 else 9)) + 2) / 5 + d - 1
  let doe : Int := yoe * 365 + yoe / 4 - yoe / 100 + doy
  era * 146097 + doe - 719468

/-- Number of days in a month of the (proleptic) Gregorian calendar. -/
def daysInMonth (y : Int) (m : Nat) : Nat :=
  if m = 2 then
    if y % 4 = 0 ∧ (y % 100 ≠ 0 ∨ y % 400 = 0) then 29 else 28
  else if m = 4 ∨ m = 6 ∨ m = 9 ∨ m = 11 then 30
  else 31

/-- Two decimal digits. -/
def parse2dig (a b : Char) : Option Nat :=
  if a.isDigit ∧ b.isDigit then some ((a.toNat - 48) * 10 + (b.toNat - 48)) else Option.none

/-- Four decimal digits. -/
def parse4dig (a b c d : Char) : Option Nat :=
  match parse2dig a b, parse2dig c d with
  | some hi, some lo => some (hi * 100 + lo)
  | _, _ => Option.none

/-- The date part `YYYY-MM-DD`, validated, as days from the epoch. -/
def isoDateDays (y1 y2 y3 y4 m1 m2 d1 d2 : Char) : Option Int :=
  match parse4dig y1 y2 y3 y4, parse2dig m1 m2, parse2dig d1 d2 with
  | some y, some m, some d =>
      if 1 ≤ y ∧ y ≤ 9999 ∧ 1 ≤ m ∧ m ≤ 12 ∧ 1 ≤ d ∧ d ≤ daysInMonth (Int.ofNat y) m then
        some (daysFromCivil (Int.ofNat y) (Int.ofNat m) (Int.ofNat d))
      else Option.none
  | _, _, _ => Option.none

/-- The time-of-day part `HH:MM:SS` in seconds. -/
def isoTimeSecs (h1 h2 c1 : Char) (mi1 mi2 : Char) (c2 : Char) (s1 s2 : Char) : Option Nat :=
  if c1 = ':' ∧ c2 = ':' then
    match parse2dig h1 h2, parse2dig mi1 mi2, parse2dig s1 s2 with
    | some h, some mi, some s =>
        if h ≤ 23 ∧ mi ≤ 59 ∧ s ≤ 59 then some (h * 3600 + mi * 60 + s) else Option.none
    | _, _, _ => Option.none
  else Option.none

/-- A UTC offset `±HH:MM` in signed seconds. -/
def isoOffsetSecs (sg o1 o2 c o3 o4 : Char) : Option Int :=
  if c = ':' ∧ (sg = '+' ∨ sg = '-') then
    match parse2dig o1 o2, parse2dig o3 o4 with
    | some oh, some om =>
        if oh ≤ 23 ∧ om ≤ 59 then
          let secs : Int := Int.ofNat (oh * 3600 + om * 60)
          some (if sg = '-' then -secs else secs)
        else Option.none
    | _, _ => Option.none
  else Option.none

/-- CPython `datetime.fromisoformat`, modelled for its canonical inputs:
`YYYY-MM-DD`, optionally followed by `T` or a space and `HH:MM:SS`,
optionally followed by a `±HH:MM` offset.  A parse failure is `none`
(the caller catches the `ValueError`); without an offset the result is
naive, with one it is aware (instant adjusted to UTC). -/
def fromisoformatModel (s : String) : Option PyDateTime :=
  match s.toList with
  | [y1, y2, y3, y4, '-', m1, m2, '-', d1, d2] =>
      (isoDateDays y1 y2 y3 y4 m1 m2 d1 d2).map (fun days => ⟨days * 86400, false⟩)
  | [y1, y2, y3, y4, '-', m1, m2, '-', d1, d2, sep, h1, h2, c1, mi1, mi2, c2, s1, s2] =>
      if sep = 'T' ∨ sep = ' ' then
        match isoDateDays y1 y2 y3 y4 m1 m2 d1 d2, isoTimeSecs h1 h2 c1 mi1 mi2 c2 s1 s2 with
        | some days, some secs => some ⟨days * 86400 + Int.ofNat secs, false⟩
        | _, _ => Option.none
      else Option.none
  | [y1, y2, y3, y4, '-', m1, m2, '-', d1, d2, sep, h1, h2, c1, mi1, mi2, c2, s1, s2,
     sg, o1, o2, c3, o3, o4] =>
      if sep = 'T' ∨ sep = ' ' then
        match isoDateDays y1 y2 y3 y4 m1 m2 d1 d2, isoTimeSecs h1 h2 c1 mi1 mi2 c2 s1 s2,
              isoOffsetSecs sg o1 o2 c3 o3 o4 with
        | some days, some secs, some off => some ⟨days * 86400 + Int.ofNat secs - off, true⟩
        | _, _, _ => Option.none
      else Option.none
  | _ => Option.none

/-- `normalize.iso_to_datetime`: falsy input gives `None`; otherwise the
`Z` suffix is rewritten to `+00:00` (via `str.replace`, which raises
`AttributeError` on a truthy non-string) and `datetime.fromisoformat`
is tried, with `ValueError`/`TypeError` caught to `None`. -/
def iso_to_datetime (iso_string : PyVal) : Except PyErr (Option PyDateTime) :=
  if !pyTruthy iso_string then .ok Option.none
  else match iso_string with
    | .str s => .ok (fromisoformatModel (pyReplace s "Z" "+00:00"))
    | _ => .error .attributeError

/-- `html.unescape`, modelled for the common named entities
(`&lt; &gt; &quot; &#39; &amp;`; `&amp;` is substituted last so that
`&amp;lt;` decodes to `&lt;`, as CPython's single pass does). -/
def unescapeHtml (s : String) : String :=
  pyReplace (pyReplace (pyReplace (pyReplace (pyReplace s "&lt;" "<") "&gt;" ">")
    "&quot;" "\"") "&#39;" (String.singleton (Char.ofNat 39))) "&amp;" "&"

/-- One left-to-right pass implementing `re.sub(r"<[^>]+>", "", text)`:
on `<` a candidate tag is buffered; a closing `>` discards a non-empty
buffer (the regex needs at least one inner character, so `<>` stays
literal), and an unterminated buffer is emitted literally since no match
can start inside it. -/
def stripTagsGo : List Char → Option (List Char) → List Char
  | [], Option.none => []
  | [], some buf => '<' :: buf.reverse
  | c :: rest, Option.none =>
      if c = '<' then stripTagsGo rest (some []) else c :: stripTagsGo rest Option.none
  | c :: rest, some buf =>
      if c = '>' then
        if buf.isEmpty then '<' :: '>' :: stripTagsGo rest Option.none
        else stripTagsGo rest Option.none
      else stripTagsGo rest (some (c :: buf))

/-- `re.sub(r"\n{3,}", "\n\n", text)`: any run of three or more newlines
collapses to exactly two. -/
def collapseNl : List Char → List Char
  | [] => []
  | [a] => [a]
  | [a, b] => [a, b]
  | a :: b :: c :: rest =>
      if a = '\n' && b = '\n' && c = '\n' then collapseNl (b :: c :: rest)
      else a :: collapseNl (b :: c :: rest)

/-- `normalize.strip_html`: decode entities, drop tags, collapse 3+
newlines to 2, trim. -/
def strip_html (text : String) : String :=
  pyStrip (String.mk (collapseNl (stripTagsGo (unescapeHtml text).toList Option.none)))

/-- `"\n".join(parts)`: every element must be a `str`, else `TypeError`. -/
def joinStrs : List PyVal → Except PyErr (List String)
  | [] => .ok []
  | .str s :: rest => (joinStrs rest).map (fun r => s :: r)
  | _ :: _ => .error .typeError

/-- `normalize.clean_content`: `None` becomes `""`; a list keeps its
`str` elements and, for dict elements, `part.get("text", str(part))`
(other element kinds are skipped), joins with newlines — raising
`TypeError` via `str.join` when a kept element is not a string — and
strips; any other value becomes `str(value).strip()`. -/
def clean_content (text : PyVal) : Except PyErr String :=
  match text with
  | PyVal.none => .ok ""
  | .list parts => do
      let collected := parts.toList.foldl (fun acc p =>
        match p with
        | .str s => acc ++ [PyVal.str s]
        | .dict fs => acc ++ [(pyLookup fs "text").getD (.str (pyStr p))]
        | _ => acc) []
      let strs ← joinStrs collected
      .ok (pyStrip (joinWith "\n" strs))
  | v => .ok (pyStrip (pyStr v))

/-- `normalize.sanitize_id`: `None` becomes `"unknown"`, otherwise
`str(raw_id).strip() or "unknown"`. -/
def sanitize_id (raw_id : PyVal) : String :=
  match raw_id with
  | PyVal.none => "unknown"
  | v =>
      let s := pyStrip (pyStr v)
      if s = "" then "unknown" else s

/-! ## `utils.streaming` -/

/-- Files above this size in bytes use the streaming parser. -/
def STREAMING_THRESHOLD : Nat := 50 * 1024 * 1024

/-- `streaming._standard_parse` at the level of the decoded document
(`Option.none` models a file whose read or `json.load` fails, which the
source catches and turns into an empty sequence): a list yields its dict
elements, a dict yields itself, anything else yields nothing. -/
def standard_parse : Option PyVal → List PyVal
  | Option.none => []
  | some (.list xs) => xs.toList.filter PyVal.isDict
  | some (.dict fs) => [.dict fs]
  | some _ => []

/-- `streaming._stream_parse`: `ijson.items(fh, "item")` yields the dict
elements of a top-level array; on any other well-formed document the
`item` prefix never occurs, so nothing is yielded and nothing is raised;
on a malformed document ijson raises and the source falls back to
`_standard_parse` (objects yielded before a mid-stream error are not
modelled — a malformed document is represented as `Option.none`
wholesale). -/
def stream_parse : Option PyVal → List PyVal
  | some (.list xs) => xs.toList.filter PyVal.isDict
  | some _ => []
  | Option.none => standard_parse Option.none

/-- `streaming.iter_json_array`: pick the strategy by file size. -/
def iter_json_array (file_size : Nat) (doc : Option PyVal) : List PyVal :=
  if file_size > STREAMING_THRESHOLD then stream_parse doc else standard_parse doc

/-! ## Canonical data model (`core.models`) -/

/-- `models.Attachment`.  `name`/`reference` hold raw JSON values, as the
dataclass performs no coercion. -/
structure Attachment where
  type : String
  name : PyVal
  reference : PyVal

/-- `models.Message`.  `model` holds the raw JSON value (`None` when
absent), as the dataclass performs no coercion. -/
structure Message where
  role : String
  content : String
  created_at : Option PyDateTime := Option.none
  model : PyVal := PyVal.none
  attachments : List Attachment := []

/-- `models.Conversation`.  `title`/`model` hold raw JSON values, as the
dataclass performs no coercion. -/
structure Conversation where
  id : String
  source : String
  title : PyVal
  created_at : Option PyDateTime := Option.none
  model : PyVal := PyVal.none
  messages : List Message := []
  metadata : List (String × PyVal) := []

/-- Collect the `some` results of a fallible per-item extractor, in
order, propagating the first raised error — the ubiquitous
`for raw in items: x = extract(raw); if x is not None: out.append(x)`
loop of the adapters. -/
def collectSomeM {α : Type} (f : PyVal → Except PyErr (Option α)) :
    List PyVal → Except PyErr (List α)
  | [] => .ok []
  | x :: xs => do
      let r ← f x
      let rest ← collectSomeM f xs
      match r with
      | some m => .ok (m :: rest)
      | Option.none => .ok rest

/-! ## Source detector (`core.detect`) -/

/-- The probe-relevant view of one file of an extracted archive:
for a `.json` file the outcome of reading its first 200 000 bytes and
`json.loads` (`Option.none` when unreadable, undecodable, truncated
mid-document, or when the stripped text does not start with `[`/`{`);
for an `.html` file its first 10 000 bytes (`Option.none` when
unreadable); anything else is never probed. -/
inductive FileData where
  | json (v : Option PyVal)
  | html (head : Option String)
  | other

/-- The per-item if-chain of `detect._probe_json_schema`, over the first
five items. -/
def probeItems : List PyVal → String
  | [] => "unknown"
  | item :: rest =>
      match item with
      | .dict fs =>
          if (match pyLookup fs "mapping" with | some (.dict _) => true | _ => false) then
            "chatgpt"
          else if (pyLookup fs "chat_messages").isSome then "claude"
          else if (pyLookup fs "uuid").isSome && (pyLookup fs "name").isSome then "claude"
          else if containsSubstr (pyLower (pyJsonDumps (.dict fs))) "grok" then "grok"
          else if (pyLookup fs "sender").isSome && (pyLookup fs "conversation_id").isSome then
            "grok"
          else probeItems rest
      | _ => probeItems rest

/-- `detect._probe_json_schema` on a decoded document: a list is
inspected through its first 5 items, any other value as a singleton. -/
def probe_json_schema (v : PyVal) : String :=
  probeItems ((match v with | .list xs => xs.toList | w => [w]).take 5)

/-- `detect._probe_html_for_gemini` on the (possibly unreadable) head of
an HTML file. -/
def probe_html_for_gemini : Option String → Bool
  | some head =>
      let l := pyLower head
      containsSubstr l "gemini" || containsSubstr l "bard" || containsSubstr l "google ai"
  | Option.none => false

/-- The schema-probing loop of `detect_source` over `.json` files, in
directory-walk order; the first non-`"unknown"` verdict wins. -/
def detectJsonLoop : List (String × FileData) → Option String
  | [] => Option.none
  | (p, d) :: rest =>
      if pyEndswith p ".json" then
        match d with
        | .json (some v) =>
            let r := probe_json_schema v
            if r ≠ "unknown" then some r else detectJsonLoop rest
        | _ => detectJsonLoop rest
      else detectJsonLoop rest

/-- The HTML-fallback loop of `detect_source` over `.html` files. -/
def detectHtmlLoop : List (String × FileData) → Bool
  | [] => false
  | (p, d) :: rest =>
      if pyEndswith p ".html" then
        match d with
        | .html head => if probe_html_for_gemini head then true else detectHtmlLoop rest
        | _ => detectHtmlLoop rest
      else detectHtmlLoop rest

/-- `detect.detect_source` over the archive's (relative path, file data)
pairs: gemini path marker, then grok path marker, then JSON schema
probing, then the gemini HTML fallback, else `"unknown"`. -/
def detect_source (files : List (String × FileData)) : String :=
  if files.any (fun f => containsSubstr (pyLower f.1) "gemini") then "gemini"
  else if files.any (fun f => containsSubstr (pyLower f.1) "grok") then "grok"
  else
    match detectJsonLoop files with
    | some r => r
    | Option.none => if detectHtmlLoop files then "gemini" else "unknown"

/-! ## ChatGPT adapter (`adapters.chatgpt`) -/

/-- `chatgpt._extract_text`. -/
def chatgpt_extract_text (parts : PyVal) (content_type : PyVal) : Except PyErr String :=
  if (match content_type with | .str s => s = "code" | _ => false) && pyTruthy parts then do
    let c ← clean_content parts
    .ok ("```" ++ "\n" ++ c ++ "\n" ++ "```")
  else
    clean_content parts

/-- `role_map.get(role, "assistant")` for the ChatGPT role table; an
unhashable raw role raises `TypeError`, any other non-matching value
falls to the default. -/
def chatgptRoleGet (role : PyVal) : Except PyErr String :=
  match role with
  | .list _ => .error .typeError
  | .dict _ => .error .typeError
  | .str s =>
      .ok ((List.lookup s
        [("user", "user"), ("assistant", "assistant"),
         ("system", "system"), ("tool", "tool")]).getD "assistant")
  | _ => .ok "assistant"

/-- `chatgpt._extract_attachments`. -/
def chatgpt_extract_attachments (raw_msg : PyVal) : Except PyErr (List Attachment) := do
  let metadata ← pyGetD raw_msg "metadata" (.d [])
  let attsRaw ← pyGetD metadata "attachments" (.l [])
  let items ← pyIter attsRaw
  items.foldlM (fun acc att => do
    let name ← pyGetD att "name" (.str "attachment")
    let mime ← pyGetD att "mimeType" (.str "")
    let isImg ← pyStartswithE mime "image/"
    let att_type := if isImg then "image" else "file"
    let ref ← pyGetD att "id" name
    pure (acc ++ [⟨att_type, name, ref⟩])) []

/-- `chatgpt._extract_message` on a mapping node's `message` payload. -/
def chatgpt_extract_message (raw_msg : PyVal) : Except PyErr (Option Message) :=
  match raw_msg with
  | PyVal.none => .ok Option.none
  | v => do
      let author ← pyGetD v "author" (.d [])
      let role ← pyGetD author "role" (.str "unknown")
      let content_obj ← pyGetD v "content" (.d [])
      let content_type ← pyGetD content_obj "content_type" (.str "text")
      let parts ← pyGetD content_obj "parts" (.l [])
      let text ← chatgpt_extract_text parts content_type
      if text = "" then .ok Option.none
      else do
        let normalized_role ← chatgptRoleGet role
        let ct ← pyGetD v "create_time" PyVal.none
        let created_at ← unix_to_datetime ct
        let meta ← pyGetD v "metadata" (.d [])
        let slug ← pyGetD meta "model_slug" PyVal.none
        let model := pyOr slug PyVal.none
        let attachments ← chatgpt_extract_attachments v
        .ok (some ⟨normalized_role, text, created_at, model, attachments⟩)

/-- One entry of a ChatGPT `mapping` dict, modelled as a well-typed node
record (`parent`, `children`, `message`), the shape the walk relies on. -/
structure MapNode where
  parent : Option String
  children : List String
  message : PyVal := PyVal.none

/-- The root search of `chatgpt._walk_mapping`: the first node (in dict
insertion order) whose parent is `None` or absent from the mapping. -/
def chatgpt_find_root (mp : List (String × MapNode)) : Option String :=
  (mp.find? (fun kv =>
    match kv.2.parent with
    | Option.none => true
    | some p => (List.lookup p mp).isNone)).map Prod.fst

/-- The sort key `m.created_at or 0` when every message has a
timestamp (those without one keyed 0, only ever in the all-absent case
where the order is unchanged). -/
def msgKeyEpoch (m : Message) : Int :=
  match m.created_at with
  | some dt => dt.epoch
  | Option.none => 0

/-- Stable insertion used to model CPython's (stable) `list.sort`. -/
def insertByEpoch (m : Message) : List Message → List Message
  | [] => [m]
  | x :: xs => if msgKeyEpoch m < msgKeyEpoch x then m :: x :: xs else x :: insertByEpoch m xs

/-- Stable sort by `msgKeyEpoch` (models `list.sort(key=…)`). -/
def sortByEpoch (l : List Message) : List Message :=
  l.foldl (fun acc m => insertByEpoch m acc) []

/-- `chatgpt._extract_messages_flat`: extract every node's message, then
`messages.sort(key=lambda m: m.created_at or 0)`.  When the collected
messages mix present and absent timestamps, CPython's sort compares a
`datetime` with the int `0` and raises `TypeError` (the comparison-based
sort must compare some cross-type pair); otherwise it sorts by timestamp
(an all-absent list has all-equal keys and stays in order). -/
def chatgpt_extract_messages_flat (mp : List (String × MapNode)) :
    Except PyErr (List Message) := do
  let messages ← collectSomeM chatgpt_extract_message (mp.map (fun kv => kv.2.message))
  if (messages.any fun m => m.created_at.isSome) && (messages.any fun m => m.created_at.isNone) then
    .error .typeError
  else .ok (sortByEpoch messages)

/-- The walk loop of `chatgpt._walk_mapping`, with explicit fuel (the
loop `while current_id and current_id not in visited` also stops on a
falsy — empty-string — id, a revisit, or an id absent from the
mapping). -/
def chatgptWalkAux (mp : List (String × MapNode)) :
    Nat → Option String → List String → List Message → Except PyErr (List Message)
  | 0, _, _, acc => .ok acc
  | fuel + 1, cur, visited, acc =>
      match cur with
      | Option.none => .ok acc
      | some c =>
          if c = "" then .ok acc
          else if visited.contains c then .ok acc
          else
            match List.lookup c mp with
            | Option.none => .ok acc
            | some node => do
                let m? ← chatgpt_extract_message node.message
                let acc2 := match m? with | some m => acc ++ [m] | Option.none => acc
                let next := match node.children with | [] => Option.none | c0 :: _ => some c0
                chatgptWalkAux mp fuel next (c :: visited) acc2

/-- `chatgpt._walk_mapping` with explicit fuel for the walk loop. -/
def chatgpt_walk_mapping_fuel (mp : List (String × MapNode)) (fuel : Nat) :
    Except PyErr (List Message) :=
  if mp.isEmpty then .ok []
  else
    match chatgpt_find_root mp with
    | Option.none => chatgpt_extract_messages_flat mp
    | some rootId => chatgptWalkAux mp fuel (some rootId) [] []

/-- `chatgpt._walk_mapping`: the fuel `|mapping| + 1` always suffices
(each iteration either stops or marks an unvisited mapping key
visited). -/
def chatgpt_walk_mapping (mp : List (String × MapNode)) : Except PyErr (List Message) :=
  chatgpt_walk_mapping_fuel mp (mp.length + 1)

/-! ## Claude adapter (`adapters.claude`) -/

/-- `role_map.get(sender, "assistant")` for the Claude sender table. -/
def claudeRoleGet (sender : PyVal) : Except PyErr String :=
  match sender with
  | .list _ => .error .typeError
  | .dict _ => .error .typeError
  | .str s =>
      .ok ((List.lookup s
        [("human", "user"), ("assistant", "assistant"), ("system", "system")]).getD "assistant")
  | _ => .ok "assistant"

/-- The `content` array walk of `claude._parse_message`: `text` blocks
contribute `block.get("text", "")`, `tool_use` blocks render as
`[Tool call: <name>]`, `tool_result` blocks as `[Tool result]`, bare
strings verbatim; other blocks are skipped; the parts are newline-joined
(raising `TypeError` when a kept `text` value is not a string) and
stripped. -/
def claude_block_text (blocks : List PyVal) : Except PyErr String := do
  let collected := blocks.foldl (fun acc block =>
    match block with
    | .dict fs =>
        let t := (pyLookup fs "type").getD PyVal.none
        if (match t with | .str s => s == "text" | _ => false) then
          acc ++ [(pyLookup fs "text").getD (.str "")]
        else if (match t with | .str s => s == "tool_use" | _ => false) then
          acc ++ [.str ("[Tool call: " ++ pyStr ((pyLookup fs "name").getD (.str "unknown")) ++ "]")]
        else if (match t with | .str s => s == "tool_result" | _ => false) then
          acc ++ [.str "[Tool result]"]
        else acc
    | .str s => acc ++ [PyVal.str s]
    | _ => acc) []
  let strs ← joinStrs collected
  .ok (pyStrip (joinWith "\n" strs))

/-- `claude._extract_attachments` (over the message's dict fields). -/
def claude_extract_attachments (fs : PyFields) : Except PyErr (List Attachment) := do
  let attsRaw := (pyLookup fs "attachments").getD (.l [])
  let items ← pyIter attsRaw
  let fromAtts ← items.foldlM (fun acc att =>
    match att with
    | .dict afs => do
        let name := pyOr ((pyLookup afs "file_name").getD PyVal.none)
          ((pyLookup afs "name").getD (.str "attachment"))
        let file_type := (pyLookup afs "file_type").getD (.str "unknown")
        let isImg ← pyStartswithE file_type "image/"
        let att_type := if isImg then "image" else "file"
        let ref := (pyLookup afs "id").getD name
        pure (acc ++ [(⟨att_type, name, ref⟩ : Attachment)])
    | _ => pure acc) []
  let filesRaw := (pyLookup fs "files").getD (.l [])
  let fitems ← pyIter filesRaw
  fitems.foldlM (fun acc att =>
    match att with
    | .dict afs => do
        let name := pyOr ((pyLookup afs "file_name").getD PyVal.none)
          ((pyLookup afs "name").getD (.str "file"))
        pure (acc ++ [(⟨"file", name, (pyLookup afs "id").getD name⟩ : Attachment)])
    | _ => pure acc) fromAtts

/-- `claude._parse_message`: non-dicts are dropped; the role comes from
the sender table; text from a direct `text` field or a `content`
array/value; an empty text drops the message. -/
def claude_parse_message (raw_msg : PyVal) : Except PyErr (Option Message) :=
  match raw_msg with
  | .dict fs => do
      let sender := (pyLookup fs "sender").getD (.str "")
      let role ← claudeRoleGet sender
      let text ←
        if (pyLookup fs "text").isSome then
          clean_content ((pyLookup fs "text").getD PyVal.none)
        else if (pyLookup fs "content").isSome then
          match (pyLookup fs "content").getD PyVal.none with
          | .list blocks => claude_block_text blocks.toList
          | content => clean_content content
        else pure ""
      if text = "" then .ok Option.none
      else do
        let created_at ← iso_to_datetime ((pyLookup fs "created_at").getD PyVal.none)
        let model := pyOr ((pyLookup fs "model").getD PyVal.none) PyVal.none
        let attachments ← claude_extract_attachments fs
        .ok (some ⟨role, text, created_at, model, attachments⟩)
  | _ => .ok Option.none

/-- The model back-fill scan of `claude._parse_conversation`: the first
dict message carrying a truthy `model` field (else `""`). -/
def claudeScanModel : List PyVal → PyVal
  | [] => .str ""
  | .dict fs :: rest =>
      let mm := pyOr ((pyLookup fs "model").getD PyVal.none) (.str "")
      if pyTruthy mm then mm else claudeScanModel rest
  | _ :: rest => claudeScanModel rest

/-- `claude._parse_conversation`.  Note: it builds a `Conversation`
whether or not any message survived — there is no empty-messages
guard. -/
def claude_parse_conversation (raw : PyVal) : Except PyErr (Option Conversation) :=
  match raw with
  | .dict fs => do
      let conv_id := sanitize_id (pyOr ((pyLookup fs "uuid").getD PyVal.none)
        ((pyLookup fs "id").getD PyVal.none))
      let title := pyOr (pyOr ((pyLookup fs "name").getD PyVal.none)
        ((pyLookup fs "title").getD PyVal.none)) (.str "Untitled")
      let created_at ← iso_to_datetime ((pyLookup fs "created_at").getD PyVal.none)
      let raw_messages := (pyLookup fs "chat_messages").getD (.l [])
      let items ← pyIter raw_messages
      let messages ← collectSomeM claude_parse_message items
      let model0 := pyOr ((pyLookup fs "model").getD PyVal.none) (.str "")
      let model := if pyTruthy model0 then model0 else claudeScanModel items
      let metadata := (if pyTruthy model then [("model", model)] else []) ++
        (match (pyLookup fs "project").getD PyVal.none with
         | .dict pfs =>
             if pyTruthy (.dict pfs) then [("project", (pyLookup pfs "name").getD (.str ""))]
             else []
         | _ => [])
      .ok (some ⟨conv_id, "claude", title, created_at, model, messages, metadata⟩)
  | _ => .ok Option.none

/-- The per-file loop of `claude.parse` at the level of the JSON items
yielded by `iter_json_array`: collect the non-`None` conversations. -/
def claude_parse_items (items : List PyVal) : Except PyErr (List Conversation) :=
  collectSomeM claude_parse_conversation items

/-! ## Gemini adapter (`adapters.gemini`) -/

/-- The `parts` walk of `gemini._parse_json_message`: string parts and
`p["text"]` of dict parts carrying `"text"`, newline-joined (`TypeError`
when a kept value is not a string), stripped. -/
def geminiPartsText (parts : List PyVal) : Except PyErr String := do
  let collected := parts.foldl (fun acc p =>
    match p with
    | .str s => acc ++ [PyVal.str s]
    | .dict fs =>
        match pyLookup fs "text" with
        | some t => acc ++ [t]
        | Option.none => acc
    | _ => acc) []
  let strs ← joinStrs collected
  .ok (pyStrip (joinWith "\n" strs))

/-- `gemini._parse_json_message`: non-dicts are dropped; the raw role
(`role` or `author`) is lowercased — which raises `AttributeError` on a
truthy non-string such as a number — and mapped through the Gemini role
table; text comes from `text`, `content` or `parts`; empty text drops
the message. -/
def gemini_parse_json_message (raw_msg : PyVal) : Except PyErr (Option Message) :=
  match raw_msg with
  | .dict fs => do
      let role_raw := pyOr ((pyLookup fs "role").getD (.str ""))
        ((pyLookup fs "author").getD (.str ""))
      let lowered ← pyLowerE role_raw
      let role := (List.lookup lowered
        [("user", "user"), ("model", "assistant"), ("assistant", "assistant"),
         ("system", "system"), ("0", "user"), ("1", "assistant")]).getD "assistant"
      let text ←
        if (pyLookup fs "text").isSome then
          clean_content ((pyLookup fs "text").getD PyVal.none)
        else if (pyLookup fs "content").isSome then
          clean_content ((pyLookup fs "content").getD PyVal.none)
        else if (pyLookup fs "parts").isSome then
          match (pyLookup fs "parts").getD PyVal.none with
          | .list parts => geminiPartsText parts.toList
          | _ => pure ""
        else pure ""
      if text = "" then .ok Option.none
      else do
        let created1 ← iso_to_datetime ((pyLookup fs "created_at").getD PyVal.none)
        let created_at ←
          match created1 with
          | some dt => pure (some dt)
          | Option.none => unix_to_datetime ((pyLookup fs "create_time").getD PyVal.none)
        .ok (some ⟨role, text, created_at, PyVal.none, []⟩)
  | _ => .ok Option.none

/-- `gemini._parse_json_conversation`: a conversation with zero
extracted messages is discarded. -/
def gemini_parse_json_conversation (raw : PyVal) : Except PyErr (Option Conversation) :=
  match raw with
  | .dict fs => do
      let conv_id := sanitize_id (pyOr (pyOr ((pyLookup fs "id").getD PyVal.none)
        ((pyLookup fs "conversation_id").getD PyVal.none))
        ((pyLookup fs "thread_id").getD PyVal.none))
      let title := pyOr (pyOr ((pyLookup fs "title").getD PyVal.none)
        ((pyLookup fs "name").getD PyVal.none)) (.str "Untitled")
      let created1 ← iso_to_datetime ((pyLookup fs "created_at").getD PyVal.none)
      let created_at ←
        match created1 with
        | some dt => pure (some dt)
        | Option.none => unix_to_datetime ((pyLookup fs "create_time").getD PyVal.none)
      let raw_messages := pyOr ((pyLookup fs "messages").getD (.l []))
        ((pyLookup fs "turns").getD (.l []))
      let items ← pyIter raw_messages
      let messages ← collectSomeM gemini_parse_json_message items
      if messages.isEmpty then .ok Option.none
      else .ok (some ⟨conv_id, "gemini", title, created_at, PyVal.none, messages, []⟩)
  | _ => .ok Option.none

/-- The per-file body of `gemini._parse_json_file` after `json.load`
(a decode/read failure yields `[]` in the source and is not modelled
here): a non-list document is wrapped as a singleton. -/
def gemini_parse_json_data (data : PyVal) : Except PyErr (List Conversation) :=
  let items := match data with | .list xs => xs.toList | v => [v]
  collectSomeM gemini_parse_json_conversation items

/-- Pattern 1 of `gemini._extract_html_messages`, over the raw regex
matches for user- and assistant-classed divs (the `re` engine is
abstracted to the lists of matched substrings): interleave by index,
stripping markup and keeping non-empty texts. -/
def gemini_interleave_turns (user_turns assistant_turns : List String) : List Message :=
  (List.range (max user_turns.length assistant_turns.length)).foldl (fun msgs i =>
    let msgs :=
      match user_turns[i]? with
      | some t =>
          let text := strip_html t
          if text.isEmpty then msgs else msgs ++ [⟨"user", text, Option.none, PyVal.none, []⟩]
      | Option.none => msgs
    match assistant_turns[i]? with
    | some t =>
        let text := strip_html t
        if text.isEmpty then msgs else msgs ++ [⟨"assistant", text, Option.none, PyVal.none, []⟩]
    | Option.none => msgs) []

/-- Pattern 2 of `gemini._extract_html_messages`, over the blocks split
on horizontal rules / separator divs: blocks whose stripped text exceeds
10 characters are kept and labelled alternately starting with
`"user"`. -/
def gemini_alternate_blocks (blocks : List String) : List Message :=
  (blocks.foldl (fun (st : List Message × String) block =>
    let text := strip_html block
    if 10 < text.length then
      (st.1 ++ [⟨st.2, text, Option.none, PyVal.none, []⟩],
       if st.2 = "user" then "assistant" else "user")
    else st) ([], "user")).1

/-- `gemini._extract_html_messages`: pattern 1 wins whenever either
regex matched at all, otherwise pattern 2. -/
def gemini_extract_html_messages (user_turns assistant_turns blocks : List String) :
    List Message :=
  if !user_turns.isEmpty || !assistant_turns.isEmpty then
    gemini_interleave_turns user_turns assistant_turns
  else gemini_alternate_blocks blocks

/-- `gemini._parse_html_file`, with file reading, the marker test and
the `<title>` regex abstracted to parameters (`markerOk` is the
case-insensitive gemini/bard/google containment test on the raw HTML;
`title` the extracted title; the three lists the regex outputs): a file
yielding no messages is skipped. -/
def gemini_parse_html_file (markerOk : Bool) (title : PyVal) (stem : String)
    (user_turns assistant_turns blocks : List String) : Option Conversation :=
  if !markerOk then Option.none
  else
    let messages := gemini_extract_html_messages user_turns assistant_turns blocks
    if messages.isEmpty then Option.none
    else some ⟨sanitize_id (.str stem), "gemini", title, Option.none, PyVal.none, messages, []⟩

/-! ## Grok adapter (`adapters.grok`) -/

/-- `grok._parse_message`: non-dicts are dropped; the raw role
(`role`/`sender`/`author`) is lowercased (raising `AttributeError` on a
truthy non-string) and mapped through the Grok role table; text from
`text`, `content` or `message`; empty text drops the message. -/
def grok_parse_message (raw_msg : PyVal) : Except PyErr (Option Message) :=
  match raw_msg with
  | .dict fs => do
      let role_raw := pyOr (pyOr ((pyLookup fs "role").getD (.str ""))
        ((pyLookup fs "sender").getD (.str ""))) ((pyLookup fs "author").getD (.str ""))
      let lowered ← pyLowerE role_raw
      let role := (List.lookup lowered
        [("user", "user"), ("human", "user"), ("grok", "assistant"),
         ("assistant", "assistant"), ("model", "assistant"), ("system", "system")]).getD
        "assistant"
      let text ←
        if (pyLookup fs "text").isSome then
          clean_content ((pyLookup fs "text").getD PyVal.none)
        else if (pyLookup fs "content").isSome then
          clean_content ((pyLookup fs "content").getD PyVal.none)
        else if (pyLookup fs "message").isSome then
          clean_content ((pyLookup fs "message").getD PyVal.none)
        else pure ""
      if text = "" then .ok Option.none
      else do
        let created1 ← iso_to_datetime ((pyLookup fs "created_at").getD PyVal.none)
        let created_at ←
          match created1 with
          | some dt => pure (some dt)
          | Option.none =>
              unix_to_datetime (pyOr ((pyLookup fs "timestamp").getD PyVal.none)
                ((pyLookup fs "create_time").getD PyVal.none))
        .ok (some ⟨role, text, created_at, PyVal.none, []⟩)
  | _ => .ok Option.none

/-- `grok._parse_conversation`: like the Gemini JSON path with the Grok
role table and title default; zero surviving messages discard it. -/
def grok_parse_conversation (raw : PyVal) : Except PyErr (Option Conversation) :=
  match raw with
  | .dict fs => do
      let conv_id := sanitize_id (pyOr (pyOr ((pyLookup fs "id").getD PyVal.none)
        ((pyLookup fs "conversation_id").getD PyVal.none))
        ((pyLookup fs "thread_id").getD PyVal.none))
      let title := pyOr (pyOr ((pyLookup fs "title").getD PyVal.none)
        ((pyLookup fs "name").getD PyVal.none)) (.str "Grok Conversation")
      let created1 ← iso_to_datetime ((pyLookup fs "created_at").getD PyVal.none)
      let created_at ←
        match created1 with
        | some dt => pure (some dt)
        | Option.none =>
            unix_to_datetime (pyOr ((pyLookup fs "create_time").getD PyVal.none)
              ((pyLookup fs "timestamp").getD PyVal.none))
      let raw_messages := pyOr ((pyLookup fs "messages").getD (.l []))
        ((pyLookup fs "turns").getD (.l []))
      let items ← pyIter raw_messages
      let messages ← collectSomeM grok_parse_message items
      if messages.isEmpty then .ok Option.none
      else .ok (some ⟨conv_id, "grok", title, created_at, PyVal.none, messages, []⟩)
  | _ => .ok Option.none

/-- The flat-message sort key `m.get("timestamp") or m.get("created_at")
or ""` (receiver is a dict by construction of the groups). -/
def grokMsgKey (m : PyVal) : Except PyErr PyVal := do
  let a ← pyGetD m "timestamp" PyVal.none
  let b ← pyGetD m "created_at" PyVal.none
  pure (pyOr (pyOr a b) (.str ""))

/-- Python `<` for the orderable modelled values (strings
lexicographically by code point, numbers with `bool` as 0/1); any other
pair raises `TypeError` (list/list and cross-container comparisons are
outside the model — the sort keys here are strings in every exercised
case). -/
def pyLtE (a b : PyVal) : Except PyErr Bool :=
  match a, b with
  | .str x, .str y => .ok (pyStrLt x y)
  | .int x, .int y => .ok (decide (x < y))
  | .int x, .bool y => .ok (decide (x < (if y then 1 else 0)))
  | .bool x, .int y => .ok (decide ((if x then (1 : Int) else 0) < y))
  | .bool x, .bool y => .ok (decide ((if x then (1 : Int) else 0) < (if y then 1 else 0)))
  | _, _ => .error .typeError

/-- Stable keyed insertion (equal keys keep the incoming element after
the resident ones), the building block of the `list.sort(key=…)`
model.  A comparison failure raises exactly when the keys mix
incomparable types, which is also when CPython's sort raises: a sort of
incomparable key types must compare some cross-type pair. -/
def grokInsertMsg (x : PyVal × PyVal) :
    List (PyVal × PyVal) → Except PyErr (List (PyVal × PyVal))
  | [] => .ok [x]
  | y :: ys => do
      let lt ← pyLtE x.1 y.1
      if lt then .ok (x :: y :: ys)
      else do
        let r ← grokInsertMsg x ys
        .ok (y :: r)

/-- `msgs.sort(key=lambda m: m.get("timestamp") or m.get("created_at")
or "")` of `grok._parse_flat_messages`, as a stable insertion sort. -/
def grokSortMsgs (msgs : List PyVal) : Except PyErr (List PyVal) := do
  let keyed ← msgs.mapM (fun m => do
    let k ← grokMsgKey m
    pure (k, m))
  let sorted ← keyed.foldlM (fun acc km => grokInsertMsg km acc) []
  pure (sorted.map Prod.snd)

/-- The `first_ts` scan of `grok._parse_flat_messages`: the first
message (in sorted order) whose `created_at` parses as ISO or whose
`timestamp` parses as epoch seconds. -/
def grok_first_ts : List PyVal → Except PyErr (Option PyDateTime)
  | [] => .ok Option.none
  | m :: rest => do
      let ca ← pyGetD m "created_at" PyVal.none
      let t1 ← iso_to_datetime ca
      let ts ←
        match t1 with
        | some dt => pure (some dt)
        | Option.none => do
            let tv ← pyGetD m "timestamp" PyVal.none
            unix_to_datetime tv
      match ts with
      | some dt => .ok (some dt)
      | Option.none => grok_first_ts rest

/-- Append a message to its group, keeping first-seen group order and
the first-inserted key object (CPython dict semantics, with `==` as the
key equality). -/
def grokAddToGroup : List (PyVal × List PyVal) → PyVal → PyVal → List (PyVal × List PyVal)
  | [], cid, m => [(cid, [m])]
  | (k, ms) :: rest, cid, m =>
      if pyEqV k cid then (k, ms ++ [m]) :: rest
      else (k, ms) :: grokAddToGroup rest cid m

/-- The `defaultdict(list)` grouping loop of
`grok._parse_flat_messages`: dict messages are grouped by
`msg.get("conversation_id", "unknown")` (an unhashable id would raise
`TypeError` as a dict key); non-dicts are skipped. -/
def grok_group_flat (raws : List PyVal) : Except PyErr (List (PyVal × List PyVal)) :=
  raws.foldlM (fun groups msg =>
    match msg with
    | .dict fs =>
        let cid := (pyLookup fs "conversation_id").getD (.str "unknown")
        if pyHashable cid then .ok (grokAddToGroup groups cid msg)
        else .error .typeError
    | _ => .ok groups) []

/-- `grok._parse_flat_messages`: group by conversation id, sort each
group by the string timestamp key, convert to Messages, and set the
synthesized conversation's `created_at` from the first resolvable
timestamp in sorted order; a group with zero surviving messages is
dropped. -/
def grok_parse_flat_messages (raws : List PyVal) : Except PyErr (List Conversation) := do
  let groups ← grok_group_flat raws
  groups.foldlM (fun convs gp => do
    let sorted ← grokSortMsgs gp.2
    let messages ← collectSomeM grok_parse_message sorted
    if messages.isEmpty then pure convs
    else do
      let first_ts ← grok_first_ts sorted
      pure (convs ++ [⟨sanitize_id gp.1, "grok", .str "Grok Conversation", first_ts,
        PyVal.none, messages, []⟩])) []

/-- The per-file body of `grok._parse_json_file` after `json.load`: a
non-list document is wrapped; an empty document or one whose first
element is not a dict yields `[]`; a first element carrying
`conversation_id` but no `messages` dispatches to the flat-message
grouping, anything else to per-item conversation parsing. -/
def grok_parse_json_data (data : PyVal) : Except PyErr (List Conversation) :=
  let items := match data with | .list xs => xs.toList | v => [v]
  match items with
  | PyVal.dict fs :: _ =>
      if (pyLookup fs "conversation_id").isSome && !(pyLookup fs "messages").isSome then
        grok_parse_flat_messages items
      else collectSomeM grok_parse_conversation items
  | _ => .ok []

/-! Spec-side rendering of the Grok flat-message contract (for the
refinement claim): written from the specification sentence — group by
`conversation_id`, sort each group string-lexicographically by
`timestamp` or `created_at` with missing keys as the empty string,
convert the sorted group to Messages, and take as `created_at` the
earliest (first in sorted order) resolvable message timestamp.  The
message converter and the timestamp resolution are shared with the code
embedding, as the spec sentence defers to them. -/

/-- Spec-side sort key: the string value of `timestamp`, else
`created_at`, else `""`. -/
def grokSpecKey (m : PyVal) : String :=
  match m with
  | .dict fs =>
      (match pyOr (pyOr ((pyLookup fs "timestamp").getD PyVal.none)
          ((pyLookup fs "created_at").getD PyVal.none)) (.str "") with
       | .str s => s
       | _ => "")
  | _ => ""

/-- Spec-side grouping by `conversation_id` (first-seen order). -/
def grokSpecGroup (raws : List PyVal) : List (PyVal × List PyVal) :=
  raws.foldl (fun groups msg =>
    match msg with
    | .dict fs => grokAddToGroup groups ((pyLookup fs "conversation_id").getD (.str "unknown")) msg
    | _ => groups) []

/-- Spec-side stable insertion on string keys. -/
def grokSpecInsert (x : String × PyVal) : List (String × PyVal) → List (String × PyVal)
  | [] => [x]
  | y :: ys => if pyStrLt x.1 y.1 then x :: y :: ys else y :: grokSpecInsert x ys

/-- Spec-side stable string-lexicographic sort of a group. -/
def grokSpecSort (msgs : List PyVal) : List PyVal :=
  ((msgs.map (fun m => (grokSpecKey m, m))).foldl (fun acc km => grokSpecInsert km acc) []).map
    Prod.snd

/-- The Grok flat-message contract as the specification words it. -/
def grok_flat_spec (raws : List PyVal) : Except PyErr (List Conversation) :=
  (grokSpecGroup raws).foldlM (fun convs gp => do
    let sorted := grokSpecSort gp.2
    let messages ← collectSomeM grok_parse_message sorted
    if messages.isEmpty then pure convs
    else do
      let first_ts ← grok_first_ts sorted
      pure (convs ++ [⟨sanitize_id gp.1, "grok", .str "Grok Conversation", first_ts,
        PyVal.none, messages, []⟩])) []

/-! ## Generic fallback adapter (`adapters.generic`) -/

/-- The role sniff of `generic._extract_generic_message`:
`str(role_raw).lower()` (total — no `AttributeError` here), the expanded
synonym table, and the user-substring default. -/
def genericRoleOf (role_raw : PyVal) : String :=
  let lowered := pyLower (pyStr role_raw)
  (List.lookup lowered
    [("user", "user"), ("human", "user"), ("assistant", "assistant"), ("ai", "assistant"),
     ("bot", "assistant"), ("model", "assistant"), ("system", "system"),
     ("grok", "assistant")]).getD
    (if containsSubstr lowered "user" then "user" else "assistant")

/-- The content sniff of `generic._extract_generic_message`: the first
present key among `content`/`text`/`message`/`body`/`value` whose
cleaned content is non-empty (the source keeps scanning past empty
ones; a final empty text is dropped by the caller either way). -/
def genericTextLoop (fs : PyFields) : List String → Except PyErr String
  | [] => pure ""
  | k :: rest =>
      match pyLookup fs k with
      | some v => do
          let t ← clean_content v
          if t = "" then genericTextLoop fs rest else pure t
      | Option.none => genericTextLoop fs rest

/-- `generic._extract_generic_message`: a bare string element becomes a
`Message` with role `"unknown"` and that string as content; other
non-dicts are dropped; dicts are sniffed for role and content, dropping
empty-content results. -/
def generic_extract_message (raw_msg : PyVal) : Except PyErr (Option Message) :=
  match raw_msg with
  | .dict fs => do
      let role_raw := pyOr (pyOr (pyOr ((pyLookup fs "role").getD (.str ""))
        ((pyLookup fs "sender").getD (.str ""))) ((pyLookup fs "author").getD (.str "")))
        ((pyLookup fs "from").getD (.str ""))
      let role := genericRoleOf role_raw
      let text ← genericTextLoop fs ["content", "text", "message", "body", "value"]
      if text = "" then .ok Option.none
      else do
        let c1 ← iso_to_datetime (pyOr ((pyLookup fs "created_at").getD PyVal.none)
          ((pyLookup fs "timestamp_str").getD PyVal.none))
        let created_at ←
          match c1 with
          | some dt => pure (some dt)
          | Option.none =>
              unix_to_datetime (pyOr ((pyLookup fs "timestamp").getD PyVal.none)
                ((pyLookup fs "create_time").getD PyVal.none))
        .ok (some ⟨role, text, created_at, PyVal.none, []⟩)
  | .str s => .ok (some ⟨"unknown", s, Option.none, PyVal.none, []⟩)
  | _ => .ok Option.none

/-- The message-list sniff of `generic._extract_generic_conversation`:
the first of the candidate keys bound to a list value. -/
def genericFindMessages (fs : PyFields) : List String → Option (List PyVal)
  | [] => Option.none
  | k :: rest =>
      match pyLookup fs k with
      | some (.list xs) => some xs.toList
      | _ => genericFindMessages fs rest

/-- `generic._extract_generic_conversation` (callers guard the receiver
with `isinstance(item, dict)`; a non-dict would raise in CPython and is
mapped to `TypeError` here): no candidate message list, or zero
surviving messages, drops the item. -/
def generic_extract_conversation (raw : PyVal) (fallback_title : String) (index : Nat) :
    Except PyErr (Option Conversation) :=
  match raw with
  | .dict fs =>
      match genericFindMessages fs
        ["messages", "turns", "chat_messages", "entries", "data", "items"] with
      | Option.none => .ok Option.none
      | some raw_messages => do
          let messages ← collectSomeM generic_extract_message raw_messages
          if messages.isEmpty then .ok Option.none
          else do
            let conv_id := sanitize_id (pyOr (pyOr (pyOr ((pyLookup fs "id").getD PyVal.none)
              ((pyLookup fs "uuid").getD PyVal.none))
              ((pyLookup fs "conversation_id").getD PyVal.none)) (.str (toString index)))
            let title := pyOr (pyOr (pyOr ((pyLookup fs "title").getD PyVal.none)
              ((pyLookup fs "name").getD PyVal.none))
              ((pyLookup fs "subject").getD PyVal.none)) (.str fallback_title)
            let c1 ← iso_to_datetime ((pyLookup fs "created_at").getD PyVal.none)
            let created_at ←
              match c1 with
              | some dt => pure (some dt)
              | Option.none =>
                  unix_to_datetime (pyOr ((pyLookup fs "create_time").getD PyVal.none)
                    ((pyLookup fs "timestamp").getD PyVal.none))
            .ok (some ⟨conv_id, "unknown", title, created_at, PyVal.none, messages, []⟩)
  | _ => .error .typeError

/-- The `enumerate` loop of `generic._try_json`: non-dict items are
skipped (their index still advances). -/
def genericTryJsonLoop (stem : String) : List PyVal → Nat → Except PyErr (List Conversation)
  | [], _ => .ok []
  | item :: rest, idx =>
      match item with
      | .dict fs => do
          let c? ← generic_extract_conversation (.dict fs) stem idx
          let rest2 ← genericTryJsonLoop stem rest (idx + 1)
          match c? with
          | some c => .ok (c :: rest2)
          | Option.none => .ok rest2
      | _ => genericTryJsonLoop stem rest (idx + 1)

/-- The per-file body of `generic._try_json` after `json.load` (`stem`
is the filename stem used as fallback title): non-list/dict documents
yield `[]`, a dict is treated as the single item. -/
def generic_try_json_data (data : PyVal) (stem : String) : Except PyErr (List Conversation) :=
  match data with
  | .list xs => genericTryJsonLoop stem xs.toList 0
  | .dict fs => genericTryJsonLoop stem [.dict fs] 0
  | _ => .ok []

/-- `generic._try_html` (file reading abstracted to `readOk`/`content`):
a stripped text shorter than 50 characters is skipped, otherwise a
single-message conversation tagged `original_format: html`. -/
def generic_try_html (readOk : Bool) (content : String) (stem : String) : Option Conversation :=
  if !readOk then Option.none
  else
    let text := strip_html content
    if text.length < 50 then Option.none
    else some ⟨sanitize_id (.str stem), "unknown", .str stem, Option.none, PyVal.none,
      [⟨"user", text, Option.none, PyVal.none, []⟩], [("original_format", .str "html")]⟩

/-- `generic._try_text` (file reading abstracted): the stripped content
must reach 50 characters; the message holds `content.strip()`. -/
def generic_try_text (readOk : Bool) (content : String) (stem : String) : Option Conversation :=
  if !readOk then Option.none
  else if (pyStrip content).length < 50 then Option.none
  else some ⟨sanitize_id (.str stem), "unknown", .str stem, Option.none, PyVal.none,
    [⟨"user", pyStrip content, Option.none, PyVal.none, []⟩], [("original_format", .str "text")]⟩


/-- Number of mapping keys not yet visited — the variant of the walk
loop. -/
def unvisitedCount (mp : List (String × MapNode)) (visited : List String) : Nat :=
  ((mp.map Prod.fst).filter (fun k => !visited.contains k)).length

/-- A two-node mapping whose second node's first child points back to
the first node: the canonical cyclic walk input. -/
def chatgptCycleMapping : List (String × MapNode) := [
  ("n1", ⟨Option.none, ["n2"],
    PyVal.d [("author", PyVal.d [("role", PyVal.str "user")]),
             ("content", PyVal.d [("parts", PyVal.l [PyVal.str "Q"])])]⟩),
  ("n2", ⟨some "n1", ["n1"],
    PyVal.d [("author", PyVal.d [("role", PyVal.str "assistant")]),
             ("content", PyVal.d [("parts", PyVal.l [PyVal.str "A"])])]⟩)]


/-- Whether an optional field value is absent, `None`, or a string —
the shape under which the Grok flat-message sort keys are strings (the
and the refinement claim applies). -/
def strOrMissing : Option PyVal → Bool
  | Option.none => true
  | some PyVal.none => true
  | some (.str _) => true
  | _ => false

/-- A flat Grok message whose two sort-key fields are strings or
missing. -/
def grokMsgFieldsOk : PyVal → Bool
  | .dict fs =>
      strOrMissing (pyLookup fs "timestamp") && strOrMissing (pyLookup fs "created_at")
  | _ => false

/-- The flat-list dispatch condition of `grok._parse_json_file`: the
first element is a dict carrying `conversation_id` but no `messages`. -/
def grokFlatShape : List PyVal → Bool
  | PyVal.dict fs :: _ =>
      (pyLookup fs "conversation_id").isSome && !(pyLookup fs "messages").isSome
  | _ => false

/-- Hypotheses of the flat-message refinement: every dict element has
string-or-missing sort-key fields and a hashable conversation id. -/
def grokFlatFieldsOk (raws : List PyVal) : Bool :=
  raws.all (fun m =>
    match m with
    | PyVal.dict fs =>
        grokMsgFieldsOk (PyVal.dict fs) &&
          pyHashable ((pyLookup fs "conversation_id").getD (.str "unknown"))
    | _ => true)

/-- A concrete flat Grok export: two conversations interleaved, one
message without a timestamp. -/
def grokFlatWitnessInput : List PyVal := [
  .d [("conversation_id", .str "b"), ("sender", .str "user"), ("text", .str "m3"),
      ("created_at", .str "2024-01-02T00:00:00")],
  .d [("conversation_id", .str "a"), ("sender", .str "grok"), ("text", .str "m2"),
      ("created_at", .str "2024-01-03T00:00:00")],
  .d [("conversation_id", .str "a"), ("sender", .str "user"), ("text", .str "m1")]]

/-! ## Helper lemmas -/

set_option maxRecDepth 8000

theorem PyList.toList_ofList : ∀ l : List PyVal, (PyList.ofList l).toList = l
  | [] => rfl
  | _ :: xs => by simp [PyList.ofList, PyList.toList, PyList.toList_ofList xs]

theorem exceptBind_ok {α β : Type} {x : Except PyErr α} {f : α → Except PyErr β} {b : β}
    (h : (x >>= f) = .ok b) : ∃ a, x = .ok a ∧ f a = .ok b := by
  cases x with
  | ok a => exact ⟨a, rfl, h⟩
  | error e => simp [Bind.bind, Except.bind] at h

/-! ## Claim theorems -/

/-- C8: `unix_to_datetime` is claimed never to raise, but an integer
timestamp of magnitude at least `2^1024` (here `10^400`) makes
`float(timestamp)` raise `OverflowError`, which is not in the caught
`(ValueError, TypeError, OSError)` and escapes; the surrounding
conjuncts confirm the documented behaviour on missing, in-range,
non-numeric and out-of-range input. -/
theorem unix_to_datetime_overflow_bug :
    unix_to_datetime (PyVal.int (10 ^ 400)) = .error .overflowError ∧
    unix_to_datetime PyVal.none = .ok Option.none ∧
    unix_to_datetime (PyVal.int 1700000000) = .ok (some ⟨1700000000, true⟩) ∧
    unix_to_datetime (PyVal.str "abc") = .ok Option.none ∧
    unix_to_datetime (PyVal.int (10 ^ 15)) = .ok Option.none :=
  ⟨rfl, rfl, rfl, rfl, rfl⟩

/-- C9 counterexample: `0` is falsy in Python, yet
`sanitize_id(0) = str(0).strip() or "unknown"` returns `"0"`, not the
claimed `"unknown"`. -/
theorem sanitize_id_cex_falsy_int :
    pyTruthy (PyVal.int 0) = false ∧ sanitize_id (PyVal.int 0) = "0" ∧ "0" ≠ "unknown" :=
  ⟨rfl, rfl, by decide⟩

/-- C9 amended: `sanitize_id` maps `None` and any value whose trimmed
`str` form is empty (in particular the empty or whitespace-only string)
to `"unknown"`; every other value — including falsy non-strings such as
`0` — yields its trimmed non-empty `str` form; the result is never the
empty string. -/
theorem sanitize_id_amended :
    (∀ v : PyVal, sanitize_id v ≠ "") ∧
    sanitize_id PyVal.none = "unknown" ∧
    (∀ s : String, sanitize_id (PyVal.str s) =
      if pyStrip s = "" then "unknown" else pyStrip s) ∧
    (∀ v : PyVal, v ≠ PyVal.none →
      sanitize_id v = if pyStrip (pyStr v) = "" then "unknown" else pyStrip (pyStr v)) := by
  refine ⟨?_, rfl, ?_, ?_⟩
  · intro v
    cases v <;> simp only [sanitize_id] <;> first
      | decide
      | (split <;> simp_all)
  · intro s
    simp only [sanitize_id, pyStr]
  · intro v hv
    cases v <;> simp_all [sanitize_id]

/-- C9 witness: the amended description evaluated at `False` and at a
whitespace-only string. -/
theorem sanitize_id_amended_witness :
    sanitize_id (PyVal.bool false) = "False" ∧ sanitize_id (PyVal.str " ") = "unknown" := by
  constructor
  · have h := sanitize_id_amended.2.2.2 (PyVal.bool false) (by intro h; cases h)
    rw [h]; rfl
  · have h := sanitize_id_amended.2.2.1 " "
    rw [h]; rfl

/-- C10: a bare string element of a candidate message list becomes a
`Message` with the literal role `"unknown"` — outside the documented
role enumeration — carrying the string verbatim as content (not
dropped, and not run through the role-synonym default). -/
theorem generic_bare_string_message :
    (∀ s : String, generic_extract_message (PyVal.str s) =
      .ok (some ⟨"unknown", s, Option.none, PyVal.none, []⟩)) ∧
    "unknown" ∉ (["user", "assistant", "system", "tool"] : List String) := by
  refine ⟨fun s => rfl, by decide⟩

/-- C4: for a document that is a valid JSON array, the streaming parse
and the whole-file parse yield the same sequence — the dict elements in
order, non-dicts skipped — and `iter_json_array` therefore yields that
sequence for every file size, below or above the threshold. -/
theorem streaming_equivalence :
    ∀ (file_size : Nat) (items : PyList),
      iter_json_array file_size (some (.list items)) = items.toList.filter PyVal.isDict ∧
      stream_parse (some (.list items)) = standard_parse (some (.list items)) := by
  intro n items
  refine ⟨?_, rfl⟩
  unfold iter_json_array stream_parse standard_parse
  split <;> rfl

/-- C5 counterexample: a single top-level JSON object above the 50 MB
threshold is routed to the streaming parser, and `ijson.items(fh, "item")`
yields nothing for a non-array document (and raises nothing, so the
standard-parse fallback is not taken): the claimed one-element sequence
is actually empty. -/
theorem iter_single_object_cex :
    iter_json_array (STREAMING_THRESHOLD + 1) (some (.d [("a", .int 1)])) = [] ∧
    ([] : List PyVal) ≠ [.d [("a", .int 1)]] :=
  ⟨rfl, fun h => List.noConfusion h⟩

/-- C5 amended: a file holding a single top-level JSON object yields
exactly that object when its size is at or below the streaming
threshold; above the threshold the streaming parser finds no top-level
array item and the sequence is empty. -/
theorem iter_single_object_amended :
    ∀ (fs : PyFields) (file_size : Nat),
      (file_size ≤ STREAMING_THRESHOLD →
        iter_json_array file_size (some (.dict fs)) = [.dict fs]) ∧
      (STREAMING_THRESHOLD < file_size →
        iter_json_array file_size (some (.dict fs)) = []) := by
  intro fs n
  constructor
  · intro h
    unfold iter_json_array
    rw [if_neg (by omega)]
    rfl
  · intro h
    unfold iter_json_array
    rw [if_pos (by omega)]
    rfl

/-- C5 witness: the amended statement evaluated below and above the
threshold. -/
theorem iter_single_object_amended_witness :
    iter_json_array 7 (some (.d [("a", .int 1)])) = [.d [("a", .int 1)]] ∧
    iter_json_array (STREAMING_THRESHOLD + 1) (some (.d [("a", .int 1)])) = [] := by
  constructor
  · exact (iter_single_object_amended (PyFields.ofList [("a", .int 1)]) 7).1 (by decide)
  · exact (iter_single_object_amended (PyFields.ofList [("a", .int 1)])
      (STREAMING_THRESHOLD + 1)).2 (by omega)

/-- C2: adapters are claimed never to raise on malformed input, but a
Gemini JSON message whose `role` field is the number `1` (truthy, so the
`or`-chain keeps it) reaches `role_raw.lower()` and raises
`AttributeError`, which propagates through `_parse_json_conversation`
and `_parse_json_file` (whose `try` covers only `json.load`) out of
`gemini.parse`. -/
theorem parse_never_raises_bug :
    gemini_parse_json_data
        (.l [.d [("messages", .l [.d [("role", .int 1), ("text", .str "hi")]])]]) =
      .error .attributeError ∧
    gemini_parse_json_message (.d [("role", .int 1), ("text", .str "hi")]) =
      .error .attributeError :=
  ⟨rfl, rfl⟩

theorem probeItems_mem (items : List PyVal) :
    probeItems items = "chatgpt" ∨ probeItems items = "claude" ∨ probeItems items = "grok" ∨
      probeItems items = "unknown" := by
  induction items with
  | nil => right; right; right; rfl
  | cons item rest ih =>
      cases item with
      | dict fs =>
          simp only [probeItems]
          split_ifs <;> first
            | (left; rfl)
            | (right; left; rfl)
            | (right; right; left; rfl)
            | exact ih
      | none => exact ih
      | bool b => exact ih
      | int n => exact ih
      | str s => exact ih
      | list xs => exact ih

theorem detectJsonLoop_mem (files : List (String × FileData)) :
    ∀ r, detectJsonLoop files = some r → r = "chatgpt" ∨ r = "claude" ∨ r = "grok" := by
  induction files with
  | nil => intro r h; simp [detectJsonLoop] at h
  | cons f rest ih =>
      intro r h
      obtain ⟨p, d⟩ := f
      simp only [detectJsonLoop] at h
      by_cases hp : pyEndswith p ".json"
      · rw [if_pos hp] at h
        cases d with
        | json v? =>
            cases v? with
            | some v =>
                dsimp only at h
                by_cases hu : probe_json_schema v = "unknown"
                · rw [if_neg (by simp [hu])] at h
                  exact ih r h
                · rw [if_pos hu] at h
                  injection h with h2
                  subst h2
                  rcases probeItems_mem ((match v with
                    | .list xs => xs.toList
                    | w => [w]).take 5) with h1 | h1 | h1 | h1 <;>
                    simp_all [probe_json_schema]
            | none => exact ih r h
        | html head => exact ih r h
        | other => exact ih r h
      · rw [if_neg hp] at h
        exact ih r h


/-- C3: `detect_source` always returns one of the five provider keys
(every error path is a non-match by construction, so it never throws);
the closed conjuncts pin down the fixed check order on concrete
archives: each provider's canonical marker alone yields its key, the
gemini path marker beats the grok path marker beats JSON probing, JSON
probing beats the HTML fallback, within one probed item the `mapping`
check beats the Claude checks, and an archive without markers yields
`"unknown"`. -/
theorem detect_source_spec :
    (∀ files, detect_source files = "chatgpt" ∨ detect_source files = "claude" ∨
      detect_source files = "gemini" ∨ detect_source files = "grok" ∨
      detect_source files = "unknown") ∧
    detect_source [("conversations.json",
      .json (some (.l [.d [("mapping", .d [("x", .d [])]), ("title", .str "t")]])))] =
        "chatgpt" ∧
    detect_source [("data.json",
      .json (some (.l [.d [("uuid", .str "u"), ("name", .str "n")]])))] = "claude" ∧
    detect_source [("data.json",
      .json (some (.l [.d [("chat_messages", .l [])]])))] = "claude" ∧
    detect_source [("Takeout/Gemini Apps/a.html", .html (some "<html></html>"))] = "gemini" ∧
    detect_source [("grok/conversations.json", .json (some (.l [])))] = "grok" ∧
    detect_source [("a.json",
      .json (some (.l [.d [("sender", .str "u"), ("conversation_id", .str "c")]])))] =
        "grok" ∧
    detect_source [("a.json",
      .json (some (.l [.d [("note", .str "I love Grok")]])))] = "grok" ∧
    detect_source [("a.html", .html (some "my Bard archive"))] = "gemini" ∧
    detect_source [("a.html", .html (some "google ai export"))] = "gemini" ∧
    detect_source [("x/Gemini/a.json", .json (some (.l [.d [("mapping", .d [("x", .d [])])]]))),
      ("grok/b.txt", .other)] = "gemini" ∧
    detect_source [("grok/a.json",
      .json (some (.l [.d [("mapping", .d [("x", .d [])])]])))] = "grok" ∧
    detect_source [("a.json", .json (some (.l [.d [("mapping", .d [("x", .d [])])]]))),
      ("b.json", .json (some (.l [.d [("chat_messages", .l [])]])))] = "chatgpt" ∧
    detect_source [("a.json", .json (some (.l [.d [("mapping", .d [("x", .d [])]),
      ("chat_messages", .l []), ("uuid", .str "u"), ("name", .str "n")]])))] = "chatgpt" ∧
    detect_source [("a.json",
      .json (some (.l [.d [("sender", .str "u"), ("conversation_id", .str "c")]]))),
      ("b.html", .html (some "bard"))] = "grok" ∧
    detect_source [("notes.txt", .other), ("a.json", .json (some (.l [.d [("foo", .int 1)]]))),
      ("broken.json", .json Option.none), ("a.html", .html Option.none)] = "unknown" ∧
    detect_source [] = "unknown" := by
  refine ⟨?_, rfl, rfl, rfl, rfl, rfl, rfl, rfl, rfl, rfl, rfl, rfl, rfl, rfl, rfl, rfl, rfl⟩
  intro files
  unfold detect_source
  by_cases h1 : (files.any fun f => containsSubstr (pyLower f.1) "gemini") = true
  · rw [if_pos h1]; right; right; left; rfl
  · rw [if_neg h1]
    by_cases h2 : (files.any fun f => containsSubstr (pyLower f.1) "grok") = true
    · rw [if_pos h2]; right; right; right; left; rfl
    · rw [if_neg h2]
      cases h : detectJsonLoop files with
      | some r =>
          dsimp only
          rcases detectJsonLoop_mem files r h with hr | hr | hr
          · left; exact hr
          · right; left; exact hr
          · right; right; right; left; exact hr
      | none =>
          dsimp only
          by_cases h3 : detectHtmlLoop files = true
          · rw [if_pos h3]; right; right; left; rfl
          · rw [if_neg h3]; right; right; right; right; rfl

theorem lookup_mem_keys {β : Type} (mp : List (String × β)) (c : String) (node : β)
    (h : List.lookup c mp = some node) : c ∈ mp.map Prod.fst := by
  induction mp with
  | nil => simp [List.lookup] at h
  | cons kv rest ih =>
      obtain ⟨k, v⟩ := kv
      by_cases hk : c = k
      · subst hk; exact List.mem_cons_self _ _
      · have hb : (c == k) = false := by simpa using hk
        rw [List.lookup_cons, hb] at h
        exact List.mem_cons_of_mem _ (ih h)

theorem filterNotMem_le (keys : List String) (c : String) (visited : List String) :
    (keys.filter (fun k => decide (k ∉ (c :: visited)))).length ≤
      (keys.filter (fun k => decide (k ∉ visited))).length := by
  induction keys with
  | nil => simp
  | cons k t ih =>
      simp only [List.filter_cons]
      by_cases h1 : k ∈ (c :: visited)
      · rw [if_neg (by simp [h1])]
        by_cases h2 : k ∈ visited
        · rw [if_neg (by simp [h2])]
          exact ih
        · rw [if_pos (by simp [h2])]
          simp only [List.length_cons]
          omega
      · have h2 : k ∉ visited := fun hh => h1 (List.mem_cons_of_mem _ hh)
        rw [if_pos (by simp [h1]), if_pos (by simp [h2])]
        simp only [List.length_cons]
        omega

theorem filterNotMem_lt (keys : List String) (c : String) (visited : List String)
    (hc : c ∈ keys) (hnv : c ∉ visited) :
    (keys.filter (fun k => decide (k ∉ (c :: visited)))).length <
      (keys.filter (fun k => decide (k ∉ visited))).length := by
  induction keys with
  | nil => cases hc
  | cons k t ih =>
      simp only [List.filter_cons]
      by_cases hk : k = c
      · subst hk
        rw [if_neg (by simp), if_pos (by simp [hnv])]
        simp only [List.length_cons]
        have := filterNotMem_le t k visited
        omega
      · have hc2 : c ∈ t := by
          rcases List.mem_cons.mp hc with h | h
          · exact absurd h.symm hk
          · exact h
        have hlt := ih hc2
        by_cases h2 : k ∈ visited
        · rw [if_neg (by simp [List.mem_cons_of_mem _ h2]),
            if_neg (by simp [h2])]
          exact hlt
        · have h1 : k ∉ (c :: visited) := by
            intro hh
            rcases List.mem_cons.mp hh with h | h
            · exact hk h
            · exact h2 h
          rw [if_pos (by simp [h1]), if_pos (by simp [h2])]
          simp only [List.length_cons]
          omega

theorem containsFun_eq_decideMem (vis : List String) :
    (fun k => !vis.contains k) = (fun k : String => decide (k ∉ vis)) := by
  funext k
  simp [List.contains, List.elem_eq_mem]

theorem unvisitedCount_lt (mp : List (String × MapNode)) (c : String) (visited : List String)
    (hc : c ∈ mp.map Prod.fst) (hnv : visited.contains c = false) :
    unvisitedCount mp (c :: visited) < unvisitedCount mp visited := by
  unfold unvisitedCount
  rw [containsFun_eq_decideMem, containsFun_eq_decideMem]
  apply filterNotMem_lt _ _ _ hc
  intro hmem
  rw [show visited.contains c = true by simp [List.contains, List.elem_eq_mem, hmem]] at hnv
  cases hnv

theorem walkAux_stable (mp : List (String × MapNode)) :
    ∀ (f1 f2 : Nat) (cur : Option String) (visited : List String) (acc : List Message),
      unvisitedCount mp visited < f1 → unvisitedCount mp visited < f2 →
      chatgptWalkAux mp f1 cur visited acc = chatgptWalkAux mp f2 cur visited acc := by
  intro f1
  induction f1 with
  | zero => intro f2 cur visited acc h1 h2; omega
  | succ a ih =>
      intro f2 cur visited acc h1 h2
      cases f2 with
      | zero => omega
      | succ b =>
          simp only [chatgptWalkAux]
          cases cur with
          | none => rfl
          | some c =>
              dsimp only
              by_cases hce : c = ""
              · rw [if_pos hce, if_pos hce]
              · rw [if_neg hce, if_neg hce]
                by_cases hv : visited.contains c = true
                · rw [if_pos hv, if_pos hv]
                · rw [if_neg hv, if_neg hv]
                  cases hl : List.lookup c mp with
                  | none => rfl
                  | some node =>
                      dsimp only
                      have hmem := lookup_mem_keys mp c node hl
                      have hvf : visited.contains c = false := by
                        cases h : visited.contains c
                        · rfl
                        · exact absurd h hv
                      have hdec := unvisitedCount_lt mp c visited hmem hvf
                      cases he : chatgpt_extract_message node.message with
                      | error e =>
                          rfl
                      | ok m? =>
                          simp only [Bind.bind, Except.bind]
                          apply ih
                          · omega
                          · omega

/-- C6: the ChatGPT mapping walk terminates — with fuel `|mapping| + 1`
the loop has already reached its exit, so any larger fuel returns the
same result (each iteration either stops on a falsy/revisited/absent id
or marks one more unvisited mapping key as visited) — and on the
canonical cyclic mapping (`n1 → n2 → n1`) the walk returns exactly the
two messages collected before the revisit of `n1` was detected. -/
theorem walk_mapping_terminates :
    (∀ (mp : List (String × MapNode)) (fuel : Nat), mp.length + 1 ≤ fuel →
      chatgpt_walk_mapping_fuel mp fuel = chatgpt_walk_mapping mp) ∧
    (chatgpt_walk_mapping chatgptCycleMapping).map (fun l => l.map fun m => (m.role, m.content)) =
      .ok [("user", "Q"), ("assistant", "A")] := by
  constructor
  · intro mp fuel h
    unfold chatgpt_walk_mapping chatgpt_walk_mapping_fuel
    by_cases he : mp.isEmpty = true
    · rw [if_pos he, if_pos he]
    · rw [if_neg he, if_neg he]
      cases chatgpt_find_root mp with
      | none => rfl
      | some rootId =>
          have hcount : unvisitedCount mp [] ≤ mp.length := by
            unfold unvisitedCount
            calc ((mp.map Prod.fst).filter _).length
                ≤ (mp.map Prod.fst).length := List.length_filter_le _ _
              _ = mp.length := List.length_map _ _
          apply walkAux_stable
          · omega
          · omega
  · rfl

/-- C6 witness: the stabilization applied to the cyclic mapping with
surplus fuel. -/
theorem walk_mapping_terminates_witness :
    chatgptCycleMapping.length + 1 ≤ 50 ∧
    chatgpt_walk_mapping_fuel chatgptCycleMapping 50 = chatgpt_walk_mapping chatgptCycleMapping :=
  ⟨by decide, walk_mapping_terminates.1 chatgptCycleMapping 50 (by decide)⟩

theorem chatgpt_extract_message_content_ne (v : PyVal) (m : Message)
    (h : chatgpt_extract_message v = .ok (some m)) : m.content ≠ "" := by
  cases v with
  | none => simp [chatgpt_extract_message] at h
  | bool b =>
      simp only [chatgpt_extract_message] at h
      obtain ⟨author, _, h⟩ := exceptBind_ok h
      obtain ⟨role, _, h⟩ := exceptBind_ok h
      obtain ⟨content_obj, _, h⟩ := exceptBind_ok h
      obtain ⟨content_type, _, h⟩ := exceptBind_ok h
      obtain ⟨parts, _, h⟩ := exceptBind_ok h
      obtain ⟨text, htext, h⟩ := exceptBind_ok h
      by_cases ht : text = ""
      · rw [if_pos ht] at h; simp at h
      · rw [if_neg ht] at h
        obtain ⟨nr, _, h⟩ := exceptBind_ok h
        obtain ⟨ct, _, h⟩ := exceptBind_ok h
        obtain ⟨created, _, h⟩ := exceptBind_ok h
        obtain ⟨meta, _, h⟩ := exceptBind_ok h
        obtain ⟨slug, _, h⟩ := exceptBind_ok h
        obtain ⟨atts, _, h⟩ := exceptBind_ok h
        injection h with h
        injection h with h
        subst h
        exact ht
  | int n =>
      simp only [chatgpt_extract_message] at h
      obtain ⟨author, _, h⟩ := exceptBind_ok h
      obtain ⟨role, _, h⟩ := exceptBind_ok h
      obtain ⟨content_obj, _, h⟩ := exceptBind_ok h
      obtain ⟨content_type, _, h⟩ := exceptBind_ok h
      obtain ⟨parts, _, h⟩ := exceptBind_ok h
      obtain ⟨text, htext, h⟩ := exceptBind_ok h
      by_cases ht : text = ""
      · rw [if_pos ht] at h; simp at h
      · rw [if_neg ht] at h
        obtain ⟨nr, _, h⟩ := exceptBind_ok h
        obtain ⟨ct, _, h⟩ := exceptBind_ok h
        obtain ⟨created, _, h⟩ := exceptBind_ok h
        obtain ⟨meta, _, h⟩ := exceptBind_ok h
        obtain ⟨slug, _, h⟩ := exceptBind_ok h
        obtain ⟨atts, _, h⟩ := exceptBind_ok h
        injection h with h
        injection h with h
        subst h
        exact ht
  | str s =>
      simp only [chatgpt_extract_message] at h
      obtain ⟨author, _, h⟩ := exceptBind_ok h
      obtain ⟨role, _, h⟩ := exceptBind_ok h
      obtain ⟨content_obj, _, h⟩ := exceptBind_ok h
      obtain ⟨content_type, _, h⟩ := exceptBind_ok h
      obtain ⟨parts, _, h⟩ := exceptBind_ok h
      obtain ⟨text, htext, h⟩ := exceptBind_ok h
      by_cases ht : text = ""
      · rw [if_pos ht] at h; simp at h
      · rw [if_neg ht] at h
        obtain ⟨nr, _, h⟩ := exceptBind_ok h
        obtain ⟨ct, _, h⟩ := exceptBind_ok h
        obtain ⟨created, _, h⟩ := exceptBind_ok h
        obtain ⟨meta, _, h⟩ := exceptBind_ok h
        obtain ⟨slug, _, h⟩ := exceptBind_ok h
        obtain ⟨atts, _, h⟩ := exceptBind_ok h
        injection h with h
        injection h with h
        subst h
        exact ht
  | list xs =>
      simp only [chatgpt_extract_message] at h
      obtain ⟨author, _, h⟩ := exceptBind_ok h
      obtain ⟨role, _, h⟩ := exceptBind_ok h
      obtain ⟨content_obj, _, h⟩ := exceptBind_ok h
      obtain ⟨content_type, _, h⟩ := exceptBind_ok h
      obtain ⟨parts, _, h⟩ := exceptBind_ok h
      obtain ⟨text, htext, h⟩ := exceptBind_ok h
      by_cases ht : text = ""
      · rw [if_pos ht] at h; simp at h
      · rw [if_neg ht] at h
        obtain ⟨nr, _, h⟩ := exceptBind_ok h
        obtain ⟨ct, _, h⟩ := exceptBind_ok h
        obtain ⟨created, _, h⟩ := exceptBind_ok h
        obtain ⟨meta, _, h⟩ := exceptBind_ok h
        obtain ⟨slug, _, h⟩ := exceptBind_ok h
        obtain ⟨atts, _, h⟩ := exceptBind_ok h
        injection h with h
        injection h with h
        subst h
        exact ht
  | dict fs =>
      simp only [chatgpt_extract_message] at h
      obtain ⟨author, _, h⟩ := exceptBind_ok h
      obtain ⟨role, _, h⟩ := exceptBind_ok h
      obtain ⟨content_obj, _, h⟩ := exceptBind_ok h
      obtain ⟨content_type, _, h⟩ := exceptBind_ok h
      obtain ⟨parts, _, h⟩ := exceptBind_ok h
      obtain ⟨text, htext, h⟩ := exceptBind_ok h
      by_cases ht : text = ""
      · rw [if_pos ht] at h; simp at h
      · rw [if_neg ht] at h
        obtain ⟨nr, _, h⟩ := exceptBind_ok h
        obtain ⟨ct, _, h⟩ := exceptBind_ok h
        obtain ⟨created, _, h⟩ := exceptBind_ok h
        obtain ⟨meta, _, h⟩ := exceptBind_ok h
        obtain ⟨slug, _, h⟩ := exceptBind_ok h
        obtain ⟨atts, _, h⟩ := exceptBind_ok h
        injection h with h
        injection h with h
        subst h
        exact ht

theorem collectSomeM_forall {α : Type} (P : α → Prop) (f : PyVal → Except PyErr (Option α))
    (hf : ∀ v a, f v = .ok (some a) → P a) :
    ∀ (l : List PyVal) (out : List α), collectSomeM f l = .ok out → ∀ a ∈ out, P a := by
  intro l
  induction l with
  | nil =>
      intro out h a ha
      simp only [collectSomeM] at h
      injection h with h
      subst h
      cases ha
  | cons x xs ih =>
      intro out h a ha
      simp only [collectSomeM] at h
      obtain ⟨r, hr, h⟩ := exceptBind_ok h
      obtain ⟨rest, hrest, h⟩ := exceptBind_ok h
      cases r with
      | some mo =>
          injection h with h
          subst h
          rcases List.mem_cons.mp ha with hh | hh
          · subst hh; exact hf x a hr
          · exact ih rest hrest a hh
      | none =>
          injection h with h
          subst h
          exact ih rest hrest a ha

theorem insertByEpoch_mem (m x : Message) :
    ∀ l : List Message, x ∈ insertByEpoch m l → x = m ∨ x ∈ l := by
  intro l
  induction l with
  | nil =>
      intro hx
      simp only [insertByEpoch] at hx
      rcases List.mem_cons.mp hx with h | h
      · exact Or.inl h
      · cases h
  | cons y ys ih =>
      intro hx
      simp only [insertByEpoch] at hx
      split at hx
      · rcases List.mem_cons.mp hx with h | h
        · exact Or.inl h
        · exact Or.inr h
      · rcases List.mem_cons.mp hx with h | h
        · exact Or.inr (by rw [h]; exact List.mem_cons_self _ _)
        · rcases ih h with h2 | h2
          · exact Or.inl h2
          · exact Or.inr (List.mem_cons_of_mem _ h2)

theorem sortByEpoch_mem (l : List Message) (x : Message) (hx : x ∈ sortByEpoch l) : x ∈ l := by
  unfold sortByEpoch at hx
  suffices h : ∀ (l : List Message) (acc : List Message),
      x ∈ l.foldl (fun acc m => insertByEpoch m acc) acc → x ∈ acc ∨ x ∈ l by
    rcases h l [] hx with h2 | h2
    · cases h2
    · exact h2
  intro l2
  induction l2 with
  | nil => intro acc h; exact Or.inl h
  | cons y ys ih =>
      intro acc h
      rcases ih _ h with h2 | h2
      · rcases insertByEpoch_mem y x acc h2 with h3 | h3
        · exact Or.inr (by rw [h3]; exact List.mem_cons_self _ _)
        · exact Or.inl h3
      · exact Or.inr (List.mem_cons_of_mem _ h2)

theorem chatgpt_extract_messages_flat_content_ne (mp : List (String × MapNode))
    (ms : List Message) (h : chatgpt_extract_messages_flat mp = .ok ms) :
    ∀ m ∈ ms, m.content ≠ "" := by
  intro m hm
  unfold chatgpt_extract_messages_flat at h
  obtain ⟨messages, hmsg, h⟩ := exceptBind_ok h
  split at h
  · simp at h
  · injection h with h
    subst h
    exact collectSomeM_forall (fun m => m.content ≠ "") chatgpt_extract_message
      chatgpt_extract_message_content_ne _ messages hmsg m (sortByEpoch_mem _ _ hm)

theorem walkAux_content_ne (mp : List (String × MapNode)) :
    ∀ (fuel : Nat) (cur : Option String) (visited : List String) (acc ms : List Message),
      chatgptWalkAux mp fuel cur visited acc = .ok ms →
      (∀ m ∈ acc, m.content ≠ "") → ∀ m ∈ ms, m.content ≠ "" := by
  intro fuel
  induction fuel with
  | zero =>
      intro cur visited acc ms h hacc
      simp only [chatgptWalkAux] at h
      injection h with h
      subst h
      exact hacc
  | succ f ih =>
      intro cur visited acc ms h hacc
      simp only [chatgptWalkAux] at h
      cases cur with
      | none =>
          injection h with h
          subst h
          exact hacc
      | some c =>
          dsimp only at h
          by_cases hce : c = ""
          · rw [if_pos hce] at h
            injection h with h
            subst h
            exact hacc
          · rw [if_neg hce] at h
            by_cases hv : visited.contains c = true
            · rw [if_pos hv] at h
              injection h with h
              subst h
              exact hacc
            · rw [if_neg hv] at h
              cases hl : List.lookup c mp with
              | none =>
                  rw [hl] at h
                  injection h with h
                  subst h
                  exact hacc
              | some node =>
                  rw [hl] at h
                  dsimp only at h
                  obtain ⟨m?, hm, h⟩ := exceptBind_ok h
                  apply ih _ _ _ _ h
                  cases m? with
                  | none => exact hacc
                  | some m0 =>
                      intro m2 hm2
                      rcases List.mem_append.mp hm2 with h2 | h2
                      · exact hacc m2 h2
                      · rcases List.mem_cons.mp h2 with h3 | h3
                        · subst h3
                          exact chatgpt_extract_message_content_ne _ _ hm
                        · cases h3

theorem chatgpt_walk_mapping_content_ne (mp : List (String × MapNode)) (ms : List Message)
    (h : chatgpt_walk_mapping mp = .ok ms) : ∀ m ∈ ms, m.content ≠ "" := by
  unfold chatgpt_walk_mapping chatgpt_walk_mapping_fuel at h
  split at h
  · injection h with h
    subst h
    intro m hm
    cases hm
  · split at h
    · exact chatgpt_extract_messages_flat_content_ne mp ms h
    · exact walkAux_content_ne mp _ _ _ _ _ h (fun m hm => absurd hm (List.not_mem_nil m))

theorem claude_parse_message_content_ne (v : PyVal) (m : Message)
    (h : claude_parse_message v = .ok (some m)) : m.content ≠ "" := by
  cases v with
  | dict fs =>
      simp only [claude_parse_message] at h
      obtain ⟨role, _, h⟩ := exceptBind_ok h
      split at h
      · obtain ⟨text, _, h⟩ := exceptBind_ok h
        by_cases ht : text = ""
        · rw [if_pos ht] at h; simp at h
        · rw [if_neg ht] at h
          obtain ⟨created, _, h⟩ := exceptBind_ok h
          obtain ⟨atts, _, h⟩ := exceptBind_ok h
          injection h with h
          injection h with h
          subst h
          exact ht
      · split at h
        · split at h
          · obtain ⟨text, _, h⟩ := exceptBind_ok h
            by_cases ht : text = ""
            · rw [if_pos ht] at h; simp at h
            · rw [if_neg ht] at h
              obtain ⟨created, _, h⟩ := exceptBind_ok h
              obtain ⟨atts, _, h⟩ := exceptBind_ok h
              injection h with h
              injection h with h
              subst h
              exact ht
          · obtain ⟨text, _, h⟩ := exceptBind_ok h
            by_cases ht : text = ""
            · rw [if_pos ht] at h; simp at h
            · rw [if_neg ht] at h
              obtain ⟨created, _, h⟩ := exceptBind_ok h
              obtain ⟨atts, _, h⟩ := exceptBind_ok h
              injection h with h
              injection h with h
              subst h
              exact ht
        · obtain ⟨text, htext, h⟩ := exceptBind_ok h
          injection htext with htext
          subst htext
          rw [if_pos rfl] at h
          simp at h
  | none => simp [claude_parse_message] at h
  | bool b => simp [claude_parse_message] at h
  | int n => simp [claude_parse_message] at h
  | str s => simp [claude_parse_message] at h
  | list xs => simp [claude_parse_message] at h

theorem gemini_parse_json_message_content_ne (v : PyVal) (m : Message)
    (h : gemini_parse_json_message v = .ok (some m)) : m.content ≠ "" := by
  cases v with
  | dict fs =>
      simp only [gemini_parse_json_message] at h
      obtain ⟨lowered, _, h⟩ := exceptBind_ok h
      split at h
      · obtain ⟨text, _, h⟩ := exceptBind_ok h
        by_cases ht : text = ""
        · rw [if_pos ht] at h; simp at h
        · rw [if_neg ht] at h
          obtain ⟨c1, _, h⟩ := exceptBind_ok h
          cases c1 with
          | some dt =>
              obtain ⟨y1, _, h⟩ := exceptBind_ok h
              injection h with h
              injection h with h
              subst h
              exact ht
          | none =>
              obtain ⟨y1, _, h⟩ := exceptBind_ok h
              injection h with h
              injection h with h
              subst h
              exact ht
      · split at h
        · obtain ⟨text, _, h⟩ := exceptBind_ok h
          by_cases ht : text = ""
          · rw [if_pos ht] at h; simp at h
          · rw [if_neg ht] at h
            obtain ⟨c1, _, h⟩ := exceptBind_ok h
            cases c1 with
            | some dt =>
                obtain ⟨y1, _, h⟩ := exceptBind_ok h
                injection h with h
                injection h with h
                subst h
                exact ht
            | none =>
                obtain ⟨y1, _, h⟩ := exceptBind_ok h
                injection h with h
                injection h with h
                subst h
                exact ht
        · split at h
          · split at h
            · obtain ⟨text, _, h⟩ := exceptBind_ok h
              by_cases ht : text = ""
              · rw [if_pos ht] at h; simp at h
              · rw [if_neg ht] at h
                obtain ⟨c1, _, h⟩ := exceptBind_ok h
                cases c1 with
                | some dt =>
                    obtain ⟨y1, _, h⟩ := exceptBind_ok h
                    injection h with h
                    injection h with h
                    subst h
                    exact ht
                | none =>
                    obtain ⟨y1, _, h⟩ := exceptBind_ok h
                    injection h with h
                    injection h with h
                    subst h
                    exact ht
            · obtain ⟨text, htext, h⟩ := exceptBind_ok h
              injection htext with htext
              subst htext
              rw [if_pos rfl] at h
              simp at h
          · obtain ⟨text, htext, h⟩ := exceptBind_ok h
            injection htext with htext
            subst htext
            rw [if_pos rfl] at h
            simp at h
  | none => simp [gemini_parse_json_message] at h
  | bool b => simp [gemini_parse_json_message] at h
  | int n => simp [gemini_parse_json_message] at h
  | str s => simp [gemini_parse_json_message] at h
  | list xs => simp [gemini_parse_json_message] at h

theorem grok_parse_message_content_ne (v : PyVal) (m : Message)
    (h : grok_parse_message v = .ok (some m)) : m.content ≠ "" := by
  cases v with
  | dict fs =>
      simp only [grok_parse_message] at h
      obtain ⟨lowered, _, h⟩ := exceptBind_ok h
      split at h
      · obtain ⟨text, _, h⟩ := exceptBind_ok h
        by_cases ht : text = ""
        · rw [if_pos ht] at h; simp at h
        · rw [if_neg ht] at h
          obtain ⟨c1, _, h⟩ := exceptBind_ok h
          cases c1 with
          | some dt =>
              obtain ⟨y1, _, h⟩ := exceptBind_ok h
              injection h with h
              injection h with h
              subst h
              exact ht
          | none =>
              obtain ⟨y1, _, h⟩ := exceptBind_ok h
              injection h with h
              injection h with h
              subst h
              exact ht
      · split at h
        · obtain ⟨text, _, h⟩ := exceptBind_ok h
          by_cases ht : text = ""
          · rw [if_pos ht] at h; simp at h
          · rw [if_neg ht] at h
            obtain ⟨c1, _, h⟩ := exceptBind_ok h
            cases c1 with
            | some dt =>
                obtain ⟨y1, _, h⟩ := exceptBind_ok h
                injection h with h
                injection h with h
                subst h
                exact ht
            | none =>
                obtain ⟨y1, _, h⟩ := exceptBind_ok h
                injection h with h
                injection h with h
                subst h
                exact ht
        · split at h
          · obtain ⟨text, _, h⟩ := exceptBind_ok h
            by_cases ht : text = ""
            · rw [if_pos ht] at h; simp at h
            · rw [if_neg ht] at h
              obtain ⟨c1, _, h⟩ := exceptBind_ok h
              cases c1 with
              | some dt =>
                  obtain ⟨y1, _, h⟩ := exceptBind_ok h
                  injection h with h
                  injection h with h
                  subst h
                  exact ht
              | none =>
                  obtain ⟨y1, _, h⟩ := exceptBind_ok h
                  injection h with h
                  injection h with h
                  subst h
                  exact ht
          · obtain ⟨text, htext, h⟩ := exceptBind_ok h
            injection htext with htext
            subst htext
            rw [if_pos rfl] at h
            simp at h
  | none => simp [grok_parse_message] at h
  | bool b => simp [grok_parse_message] at h
  | int n => simp [grok_parse_message] at h
  | str s => simp [grok_parse_message] at h
  | list xs => simp [grok_parse_message] at h

theorem gemini_parse_json_conversation_ne (v : PyVal) (c : Conversation)
    (h : gemini_parse_json_conversation v = .ok (some c)) :
    c.messages ≠ [] ∧ ∀ m ∈ c.messages, m.content ≠ "" := by
  cases v with
  | dict fs =>
      simp only [gemini_parse_json_conversation] at h
      obtain ⟨c1, _, h⟩ := exceptBind_ok h
      cases c1 with
      | some dt =>
          obtain ⟨y1, _, h⟩ := exceptBind_ok h
          obtain ⟨items, _, h⟩ := exceptBind_ok h
          obtain ⟨messages, hmsg, h⟩ := exceptBind_ok h
          by_cases he : messages.isEmpty = true
          · rw [if_pos he] at h; simp at h
          · rw [if_neg he] at h
            injection h with h
            injection h with h
            subst h
            refine ⟨fun hnil => he (by rw [show messages = ([] : List Message) from hnil]; rfl), ?_⟩
            exact collectSomeM_forall (fun m => m.content ≠ "") gemini_parse_json_message
              gemini_parse_json_message_content_ne _ messages hmsg
      | none =>
          obtain ⟨y1, _, h⟩ := exceptBind_ok h
          obtain ⟨items, _, h⟩ := exceptBind_ok h
          obtain ⟨messages, hmsg, h⟩ := exceptBind_ok h
          by_cases he : messages.isEmpty = true
          · rw [if_pos he] at h; simp at h
          · rw [if_neg he] at h
            injection h with h
            injection h with h
            subst h
            refine ⟨fun hnil => he (by rw [show messages = ([] : List Message) from hnil]; rfl), ?_⟩
            exact collectSomeM_forall (fun m => m.content ≠ "") gemini_parse_json_message
              gemini_parse_json_message_content_ne _ messages hmsg
  | none => simp [gemini_parse_json_conversation] at h
  | bool b => simp [gemini_parse_json_conversation] at h
  | int n => simp [gemini_parse_json_conversation] at h
  | str s => simp [gemini_parse_json_conversation] at h
  | list xs => simp [gemini_parse_json_conversation] at h

theorem grok_parse_conversation_ne (v : PyVal) (c : Conversation)
    (h : grok_parse_conversation v = .ok (some c)) : c.messages ≠ [] := by
  cases v with
  | dict fs =>
      simp only [grok_parse_conversation] at h
      obtain ⟨c1, _, h⟩ := exceptBind_ok h
      cases c1 with
      | some dt =>
          obtain ⟨y1, _, h⟩ := exceptBind_ok h
          obtain ⟨items, _, h⟩ := exceptBind_ok h
          obtain ⟨messages, hmsg, h⟩ := exceptBind_ok h
          by_cases he : messages.isEmpty = true
          · rw [if_pos he] at h; simp at h
          · rw [if_neg he] at h
            injection h with h
            injection h with h
            subst h
            exact fun hnil => he (by rw [show messages = ([] : List Message) from hnil]; rfl)
      | none =>
          obtain ⟨y1, _, h⟩ := exceptBind_ok h
          obtain ⟨items, _, h⟩ := exceptBind_ok h
          obtain ⟨messages, hmsg, h⟩ := exceptBind_ok h
          by_cases he : messages.isEmpty = true
          · rw [if_pos he] at h; simp at h
          · rw [if_neg he] at h
            injection h with h
            injection h with h
            subst h
            exact fun hnil => he (by rw [show messages = ([] : List Message) from hnil]; rfl)
  | none => simp [grok_parse_conversation] at h
  | bool b => simp [grok_parse_conversation] at h
  | int n => simp [grok_parse_conversation] at h
  | str s => simp [grok_parse_conversation] at h
  | list xs => simp [grok_parse_conversation] at h

theorem generic_extract_conversation_ne (raw : PyVal) (ft : String) (idx : Nat)
    (c : Conversation) (h : generic_extract_conversation raw ft idx = .ok (some c)) :
    c.messages ≠ [] := by
  cases raw with
  | dict fs =>
      simp only [generic_extract_conversation] at h
      cases hf : genericFindMessages fs
        ["messages", "turns", "chat_messages", "entries", "data", "items"] with
      | none => rw [hf] at h; simp at h
      | some raw_messages =>
          rw [hf] at h
          dsimp only at h
          obtain ⟨messages, hmsg, h⟩ := exceptBind_ok h
          by_cases he : messages.isEmpty = true
          · rw [if_pos he] at h; simp at h
          · rw [if_neg he] at h
            obtain ⟨c1, _, h⟩ := exceptBind_ok h
            cases c1 with
            | some dt =>
                obtain ⟨y1, _, h⟩ := exceptBind_ok h
                injection h with h
                injection h with h
                subst h
                exact fun hnil => he (by rw [show messages = ([] : List Message) from hnil]; rfl)
            | none =>
                obtain ⟨y1, _, h⟩ := exceptBind_ok h
                injection h with h
                injection h with h
                subst h
                exact fun hnil => he (by rw [show messages = ([] : List Message) from hnil]; rfl)
  | none => simp [generic_extract_conversation] at h
  | bool b => simp [generic_extract_conversation] at h
  | int n => simp [generic_extract_conversation] at h
  | str s => simp [generic_extract_conversation] at h
  | list xs => simp [generic_extract_conversation] at h

theorem grok_flat_fold_ne (groups : List (PyVal × List PyVal)) :
    ∀ (convs0 out : List Conversation),
      ((groups.foldlM (fun convs gp => do
        let sorted ← grokSortMsgs gp.2
        let messages ← collectSomeM grok_parse_message sorted
        if messages.isEmpty then pure convs
        else do
          let first_ts ← grok_first_ts sorted
          pure (convs ++ [⟨sanitize_id gp.1, "grok", .str "Grok Conversation", first_ts,
            PyVal.none, messages, []⟩])) convs0 : Except PyErr (List Conversation))) = .ok out →
      (∀ c ∈ convs0, c.messages ≠ []) → ∀ c ∈ out, c.messages ≠ [] := by
  induction groups with
  | nil =>
      intro convs0 out h hc
      simp only [List.foldlM_nil] at h
      injection h with h
      subst h
      exact hc
  | cons gp rest ih =>
      intro convs0 out h hc
      rw [List.foldlM_cons] at h
      obtain ⟨b1, hb1, h⟩ := exceptBind_ok h
      apply ih b1 out h
      obtain ⟨sorted, _, hb1⟩ := exceptBind_ok hb1
      obtain ⟨messages, hmsg, hb1⟩ := exceptBind_ok hb1
      by_cases he : messages.isEmpty = true
      · rw [if_pos he] at hb1
        injection hb1 with hb1
        subst hb1
        exact hc
      · rw [if_neg he] at hb1
        obtain ⟨fts, _, hb1⟩ := exceptBind_ok hb1
        injection hb1 with hb1
        subst hb1
        intro c hcmem
        rcases List.mem_append.mp hcmem with h2 | h2
        · exact hc c h2
        · rcases List.mem_cons.mp h2 with h3 | h3
          · subst h3
            intro hnil
            rw [show messages = ([] : List Message) from hnil] at he
            exact he rfl
          · cases h3

theorem grok_parse_flat_messages_ne (raws : List PyVal) (cs : List Conversation)
    (h : grok_parse_flat_messages raws = .ok cs) : ∀ c ∈ cs, c.messages ≠ [] := by
  unfold grok_parse_flat_messages at h
  obtain ⟨groups, _, h⟩ := exceptBind_ok h
  exact grok_flat_fold_ne groups [] cs h (fun c hc => absurd hc (List.not_mem_nil c))

theorem foldl_preserve {α β : Type} (P : β → Prop) (step : β → α → β)
    (hstep : ∀ acc x, P acc → P (step acc x)) :
    ∀ (l : List α) (acc : β), P acc → P (l.foldl step acc) := by
  intro l
  induction l with
  | nil => intro acc h; exact h
  | cons x xs ih => intro acc h; exact ih _ (hstep acc x h)

theorem gemini_interleave_turns_content_ne (u a : List String) :
    ∀ m ∈ gemini_interleave_turns u a, m.content ≠ "" := by
  unfold gemini_interleave_turns
  apply foldl_preserve (fun msgs : List Message => ∀ m ∈ msgs, m.content ≠ "")
  · intro acc i hacc
    cases hu : u[i]? with
    | none =>
        cases ha : a[i]? with
        | none => exact hacc
        | some t =>
            intro m hm
            dsimp only at hm
            by_cases ht : (strip_html t).isEmpty = true
            · rw [if_pos ht] at hm
              exact hacc m hm
            · rw [if_neg ht] at hm
              rcases List.mem_append.mp hm with h2 | h2
              · exact hacc m h2
              · rcases List.mem_cons.mp h2 with h3 | h3
                · subst h3
                  intro hc
                  exact ht (by rw [show strip_html t = "" from hc]; rfl)
                · cases h3
    | some t =>
        cases ha : a[i]? with
        | none =>
            intro m hm
            dsimp only at hm
            by_cases ht : (strip_html t).isEmpty = true
            · rw [if_pos ht] at hm
              exact hacc m hm
            · rw [if_neg ht] at hm
              rcases List.mem_append.mp hm with h2 | h2
              · exact hacc m h2
              · rcases List.mem_cons.mp h2 with h3 | h3
                · subst h3
                  intro hc
                  exact ht (by rw [show strip_html t = "" from hc]; rfl)
                · cases h3
        | some t2 =>
            intro m hm
            dsimp only at hm
            have huser : ∀ m2 ∈ (if (strip_html t).isEmpty = true then acc else acc ++
                [({ role := "user", content := strip_html t, created_at := Option.none,
                    model := PyVal.none, attachments := [] } : Message)]), m2.content ≠ "" := by
              intro m2 hm2
              by_cases ht : (strip_html t).isEmpty = true
              · rw [if_pos ht] at hm2
                exact hacc m2 hm2
              · rw [if_neg ht] at hm2
                rcases List.mem_append.mp hm2 with h2 | h2
                · exact hacc m2 h2
                · rcases List.mem_cons.mp h2 with h3 | h3
                  · subst h3
                    intro hc
                    exact ht (by rw [show strip_html t = "" from hc]; rfl)
                  · cases h3
            by_cases ht2 : (strip_html t2).isEmpty = true
            · rw [if_pos ht2] at hm
              exact huser m hm
            · rw [if_neg ht2] at hm
              rcases List.mem_append.mp hm with h2 | h2
              · exact huser m h2
              · rcases List.mem_cons.mp h2 with h3 | h3
                · subst h3
                  intro hc
                  exact ht2 (by rw [show strip_html t2 = "" from hc]; rfl)
                · cases h3
  · intro m hm
    cases hm

theorem gemini_alternate_blocks_content_ne (blocks : List String) :
    ∀ m ∈ gemini_alternate_blocks blocks, m.content ≠ "" := by
  unfold gemini_alternate_blocks
  have h := foldl_preserve
    (fun st : List Message × String => ∀ m ∈ st.1, m.content ≠ "")
    (fun st block =>
      let text := strip_html block
      if 10 < text.length then
        (st.1 ++ [⟨st.2, text, Option.none, PyVal.none, []⟩],
         if st.2 = "user" then "assistant" else "user")
      else st)
    (by
      intro st block hst
      dsimp only
      by_cases hl : 10 < (strip_html block).length
      · rw [if_pos hl]
        intro m hm
        rcases List.mem_append.mp hm with h2 | h2
        · exact hst m h2
        · rcases List.mem_cons.mp h2 with h3 | h3
          · subst h3
            intro hc
            rw [show strip_html block = "" from hc] at hl
            simp at hl
          · cases h3
      · rw [if_neg hl]
        exact hst)
    blocks ([], "user") (by intro m hm; cases hm)
  exact h

theorem gemini_extract_html_messages_ne (u a blocks : List String) :
    ∀ m ∈ gemini_extract_html_messages u a blocks, m.content ≠ "" := by
  unfold gemini_extract_html_messages
  split
  · exact gemini_interleave_turns_content_ne u a
  · exact gemini_alternate_blocks_content_ne blocks

theorem gemini_parse_html_file_ne (mk : Bool) (t : PyVal) (st : String)
    (u a blocks : List String) (c : Conversation)
    (h : gemini_parse_html_file mk t st u a blocks = some c) :
    c.messages ≠ [] ∧ ∀ m ∈ c.messages, m.content ≠ "" := by
  unfold gemini_parse_html_file at h
  split at h
  · cases h
  · by_cases he : (gemini_extract_html_messages u a blocks).isEmpty = true
    · rw [if_pos he] at h
      cases h
    · rw [if_neg he] at h
      injection h with h
      subst h
      constructor
      · intro hnil
        rw [show gemini_extract_html_messages u a blocks = ([] : List Message) from hnil] at he
        exact he rfl
      · exact gemini_extract_html_messages_ne u a blocks

theorem generic_try_html_ne (readOk : Bool) (content st : String) (c : Conversation)
    (h : generic_try_html readOk content st = some c) :
    c.messages ≠ [] ∧ ∀ m ∈ c.messages, m.content ≠ "" := by
  unfold generic_try_html at h
  split at h
  · cases h
  · dsimp only at h
    split at h
    · cases h
    · injection h with h
      subst h
      refine ⟨by simp, ?_⟩
      intro m hm
      rcases List.mem_cons.mp hm with h3 | h3
      · subst h3
        intro hc
        rename_i hlen
        rw [show strip_html content = "" from hc] at hlen
        simp at hlen
      · cases h3

theorem generic_try_text_ne (readOk : Bool) (content st : String) (c : Conversation)
    (h : generic_try_text readOk content st = some c) :
    c.messages ≠ [] ∧ ∀ m ∈ c.messages, m.content ≠ "" := by
  unfold generic_try_text at h
  split at h
  · cases h
  · split at h
    · cases h
    · injection h with h
      subst h
      refine ⟨by simp, ?_⟩
      intro m hm
      rcases List.mem_cons.mp hm with h3 | h3
      · subst h3
        intro hc
        rename_i hlen
        rw [show pyStrip content = "" from hc] at hlen
        simp at hlen
      · cases h3

/-- C1 counterexample: `claude._parse_conversation` has no
empty-messages guard, so a Claude conversation whose `chat_messages`
list is empty yields a `Conversation` with zero messages in the
adapter's returned conversation list. -/
theorem claude_cex_zero_message_conversation :
    (claude_parse_items [.d [("uuid", .str "x"), ("name", .str "t"),
        ("chat_messages", .l [])]]).map (fun cs => cs.map (fun c => c.messages)) =
      .ok [[]] := rfl

/-- C1 (amended): a raw message whose extracted text is empty never
yields a `Message` in the chatgpt extraction and mapping walk, the
claude message parser, the gemini JSON and HTML paths, the grok message
parser, and the generic HTML and plain-text paths; and the gemini JSON
and HTML paths, the grok nested and flat paths, and the generic JSON,
HTML and text paths never emit a conversation with zero surviving
messages.  The original invariant is not adapter-universal: the chatgpt
and claude `_parse_conversation` lack the zero-message guard
(counterexample above), and the generic adapter's bare-string fallback
emits the string verbatim, so an empty bare string becomes an
empty-content `Message` with role `"unknown"` inside an output
conversation (final two conjuncts). -/
theorem dropped_empty_amended :
    (∀ v m, chatgpt_extract_message v = .ok (some m) → m.content ≠ "") ∧
    (∀ mp ms, chatgpt_walk_mapping mp = .ok ms → ∀ m ∈ ms, m.content ≠ "") ∧
    (∀ v m, claude_parse_message v = .ok (some m) → m.content ≠ "") ∧
    (∀ v m, gemini_parse_json_message v = .ok (some m) → m.content ≠ "") ∧
    (∀ v c, gemini_parse_json_conversation v = .ok (some c) →
      c.messages ≠ [] ∧ ∀ m ∈ c.messages, m.content ≠ "") ∧
    (∀ mk t st u a blocks c, gemini_parse_html_file mk t st u a blocks = some c →
      c.messages ≠ [] ∧ ∀ m ∈ c.messages, m.content ≠ "") ∧
    (∀ v m, grok_parse_message v = .ok (some m) → m.content ≠ "") ∧
    (∀ v c, grok_parse_conversation v = .ok (some c) → c.messages ≠ []) ∧
    (∀ raws cs, grok_parse_flat_messages raws = .ok cs → ∀ c ∈ cs, c.messages ≠ []) ∧
    (∀ raw ft idx c, generic_extract_conversation raw ft idx = .ok (some c) →
      c.messages ≠ []) ∧
    (∀ ro content st c, generic_try_html ro content st = some c →
      c.messages ≠ [] ∧ ∀ m ∈ c.messages, m.content ≠ "") ∧
    (∀ ro content st c, generic_try_text ro content st = some c →
      c.messages ≠ [] ∧ ∀ m ∈ c.messages, m.content ≠ "") ∧
    generic_extract_message (.str "") =
      .ok (some ⟨"unknown", "", Option.none, PyVal.none, []⟩) ∧
    (generic_extract_conversation (.d [("messages", .l [.str ""])]) "f" 0).map
        (fun c? => c?.map (fun c => c.messages.map (fun m => (m.role, m.content)))) =
      .ok (some [("unknown", "")]) := by
  refine ⟨chatgpt_extract_message_content_ne,
    chatgpt_walk_mapping_content_ne,
    claude_parse_message_content_ne,
    gemini_parse_json_message_content_ne,
    gemini_parse_json_conversation_ne,
    ?_,
    grok_parse_message_content_ne,
    grok_parse_conversation_ne,
    grok_parse_flat_messages_ne,
    generic_extract_conversation_ne,
    generic_try_html_ne,
    generic_try_text_ne,
    rfl,
    rfl⟩
  intro mk t st u a blocks c h
  exact gemini_parse_html_file_ne mk t st u a blocks c h

/-- C1 witness: the amended statement evaluated on concrete inputs — a
non-empty Claude message keeps its text, and a concrete Gemini JSON
conversation keeps its non-empty message list. -/
theorem dropped_empty_amended_witness :
    claude_parse_message (.d [("sender", .str "human"), ("text", .str "hi")]) =
      .ok (some ⟨"user", "hi", Option.none, PyVal.none, []⟩) ∧
    ("hi" : String) ≠ "" ∧
    (gemini_parse_json_conversation (.d [("id", .str "g"),
      ("messages", .l [.d [("role", .str "user"), ("text", .str "q")]])])).map
        (fun c? => c?.map (fun c => c.messages.length)) = .ok (some 1) := by
  refine ⟨rfl, ?_, rfl⟩
  exact dropped_empty_amended.2.2.1
    (.d [("sender", .str "human"), ("text", .str "hi")])
    ⟨"user", "hi", Option.none, PyVal.none, []⟩ rfl

theorem strOrMissing_getD (o : Option PyVal) (h : strOrMissing o = true) :
    o.getD PyVal.none = PyVal.none ∨ ∃ s, o.getD PyVal.none = PyVal.str s := by
  cases o with
  | none => left; rfl
  | some v =>
      cases v with
      | none => left; rfl
      | str s => right; exact ⟨s, rfl⟩
      | bool b => simp [strOrMissing] at h
      | int n => simp [strOrMissing] at h
      | list xs => simp [strOrMissing] at h
      | dict fs => simp [strOrMissing] at h

theorem pyOr_none_or_str (a b : PyVal)
    (ha : a = PyVal.none ∨ ∃ s, a = PyVal.str s)
    (hb : b = PyVal.none ∨ ∃ s, b = PyVal.str s) :
    pyOr a b = PyVal.none ∨ ∃ s, pyOr a b = PyVal.str s := by
  unfold pyOr
  by_cases ht : pyTruthy a = true
  · rw [if_pos ht]; exact ha
  · rw [if_neg ht]; exact hb

theorem pyOr_str_cases (a b : PyVal)
    (ha : a = PyVal.none ∨ ∃ s, a = PyVal.str s)
    (hb : b = PyVal.none ∨ ∃ s, b = PyVal.str s) :
    ∃ k, pyOr (pyOr a b) (.str "") = PyVal.str k := by
  rcases pyOr_none_or_str a b ha hb with hab | ⟨s, hab⟩ <;> rw [hab]
  · exact ⟨"", rfl⟩
  · unfold pyOr
    by_cases ht : pyTruthy (PyVal.str s) = true
    · rw [if_pos ht]; exact ⟨s, rfl⟩
    · rw [if_neg ht]; exact ⟨"", rfl⟩

theorem grok_key_is_str (fs : PyFields) (h : grokMsgFieldsOk (.dict fs) = true) :
    ∃ k, pyOr (pyOr ((pyLookup fs "timestamp").getD PyVal.none)
      ((pyLookup fs "created_at").getD PyVal.none)) (.str "") = PyVal.str k := by
  simp only [grokMsgFieldsOk, Bool.and_eq_true] at h
  exact pyOr_str_cases _ _ (strOrMissing_getD _ h.1) (strOrMissing_getD _ h.2)

theorem grokMsgKey_spec (m : PyVal) (h : grokMsgFieldsOk m = true) :
    grokMsgKey m = .ok (.str (grokSpecKey m)) := by
  cases m with
  | dict fs =>
      obtain ⟨k, hk⟩ := grok_key_is_str fs h
      have h1 : grokMsgKey (.dict fs) =
          .ok (pyOr (pyOr ((pyLookup fs "timestamp").getD PyVal.none)
            ((pyLookup fs "created_at").getD PyVal.none)) (.str "")) := rfl
      rw [h1, hk]
      simp only [grokSpecKey, hk]
  | none => simp [grokMsgFieldsOk] at h
  | bool b => simp [grokMsgFieldsOk] at h
  | int n => simp [grokMsgFieldsOk] at h
  | str s => simp [grokMsgFieldsOk] at h
  | list xs => simp [grokMsgFieldsOk] at h

theorem mapM_ok_of_forall {α β : Type} (f : α → Except PyErr β) (g : α → β) :
    ∀ l : List α, (∀ a ∈ l, f a = .ok (g a)) → l.mapM f = .ok (l.map g) := by
  intro l
  induction l with
  | nil => intro _; rfl
  | cons x xs ih =>
      intro h
      rw [List.mapM_cons, h x (by simp), ih (fun a ha => h a (by simp [ha]))]
      rfl

theorem grokInsert_spec (x : String × PyVal) :
    ∀ ys : List (String × PyVal),
      grokInsertMsg (.str x.1, x.2) (ys.map (fun p => ((PyVal.str p.1, p.2) : PyVal × PyVal))) =
        .ok ((grokSpecInsert x ys).map (fun p => ((PyVal.str p.1, p.2) : PyVal × PyVal))) := by
  intro ys
  induction ys with
  | nil => rfl
  | cons y ys ih =>
      have h1 : grokInsertMsg (.str x.1, x.2)
          ((y :: ys).map (fun p => ((PyVal.str p.1, p.2) : PyVal × PyVal))) =
          (if pyStrLt x.1 y.1 then
            .ok ((PyVal.str x.1, x.2) :: (PyVal.str y.1, y.2) ::
              ys.map (fun p => ((PyVal.str p.1, p.2) : PyVal × PyVal)))
          else do
            let r ← grokInsertMsg (.str x.1, x.2)
              (ys.map (fun p => ((PyVal.str p.1, p.2) : PyVal × PyVal)))
            .ok ((PyVal.str y.1, y.2) :: r)) := rfl
      rw [h1]
      cases hc : pyStrLt x.1 y.1 with
      | true =>
          rw [if_pos rfl]
          simp only [grokSpecInsert, hc, if_true, List.map_cons]
      | false =>
          rw [if_neg (by simp), ih]
          simp only [grokSpecInsert, hc, if_false, List.map_cons]
          rfl

theorem grokInsertFold_spec :
    ∀ (kms : List (String × PyVal)) (acc : List (String × PyVal)),
      (kms.map (fun p => ((PyVal.str p.1, p.2) : PyVal × PyVal))).foldlM
          (fun a km => grokInsertMsg km a)
          (acc.map (fun p => ((PyVal.str p.1, p.2) : PyVal × PyVal))) =
        .ok ((kms.foldl (fun a km => grokSpecInsert km a) acc).map
          (fun p => ((PyVal.str p.1, p.2) : PyVal × PyVal))) := by
  intro kms
  induction kms with
  | nil => intro acc; rfl
  | cons k kms ih =>
      intro acc
      simp only [List.map_cons, List.foldlM_cons, List.foldl_cons]
      rw [grokInsert_spec]
      exact ih (grokSpecInsert k acc)

theorem grokSortMsgs_spec (msgs : List PyVal) (h : ∀ m ∈ msgs, grokMsgFieldsOk m = true) :
    grokSortMsgs msgs = .ok (grokSpecSort msgs) := by
  have hkeyed : msgs.mapM (fun m => do
      let k ← grokMsgKey m
      pure (k, m)) = .ok (msgs.map (fun m => ((PyVal.str (grokSpecKey m), m) : PyVal × PyVal))) := by
    apply mapM_ok_of_forall
    intro m hm
    show (grokMsgKey m >>= fun k => pure (k, m)) = _
    rw [grokMsgKey_spec m (h m hm)]
    rfl
  have hmaps : msgs.map (fun m => ((PyVal.str (grokSpecKey m), m) : PyVal × PyVal)) =
      (msgs.map (fun m => (grokSpecKey m, m))).map
        (fun p => ((PyVal.str p.1, p.2) : PyVal × PyVal)) := by
    rw [List.map_map]
    rfl
  have hfold := grokInsertFold_spec (msgs.map (fun m => (grokSpecKey m, m))) []
  simp only [List.map_nil] at hfold
  unfold grokSortMsgs
  rw [hkeyed]
  show ((msgs.map (fun m => ((PyVal.str (grokSpecKey m), m) : PyVal × PyVal))).foldlM
      (fun acc km => grokInsertMsg km acc) [] >>= fun sorted => pure (sorted.map Prod.snd)) = _
  rw [hmaps, hfold]
  show Except.ok ((((msgs.map (fun m => (grokSpecKey m, m))).foldl
      (fun a km => grokSpecInsert km a) []).map
        (fun p => ((PyVal.str p.1, p.2) : PyVal × PyVal))).map Prod.snd) = _
  rw [List.map_map]
  rfl

theorem grok_group_flat_aux :
    ∀ (xs : List PyVal) (g : List (PyVal × List PyVal)), grokFlatFieldsOk xs = true →
      xs.foldlM ((fun groups msg =>
        match msg with
        | PyVal.dict fs =>
            let cid := (pyLookup fs "conversation_id").getD (.str "unknown")
            if pyHashable cid then .ok (grokAddToGroup groups cid msg)
            else .error .typeError
        | _ => .ok groups) :
          List (PyVal × List PyVal) → PyVal → Except PyErr (List (PyVal × List PyVal))) g =
      .ok (xs.foldl (fun groups msg =>
        match msg with
        | PyVal.dict fs =>
            grokAddToGroup groups ((pyLookup fs "conversation_id").getD (.str "unknown")) msg
        | _ => groups) g) := by
  intro xs
  induction xs with
  | nil => intro g _; rfl
  | cons x xs ih =>
      intro g h
      simp only [grokFlatFieldsOk, List.all_cons, Bool.and_eq_true] at h
      have hxs : grokFlatFieldsOk xs = true := by simp [grokFlatFieldsOk, h.2]
      rw [List.foldlM_cons, List.foldl_cons]
      cases x with
      | dict fs =>
          have hhash : pyHashable ((pyLookup fs "conversation_id").getD (.str "unknown")) = true := by
            have := h.1
            simp only [Bool.and_eq_true] at this
            exact this.2
          dsimp only
          rw [if_pos hhash]
          exact ih _ hxs
      | none => exact ih _ hxs
      | bool b => exact ih _ hxs
      | int n => exact ih _ hxs
      | str s => exact ih _ hxs
      | list l => exact ih _ hxs

theorem grok_group_flat_spec (xs : List PyVal) (h : grokFlatFieldsOk xs = true) :
    grok_group_flat xs = .ok (grokSpecGroup xs) := by
  unfold grok_group_flat grokSpecGroup
  exact grok_group_flat_aux xs [] h

theorem grokAddToGroup_mem :
    ∀ (gs : List (PyVal × List PyVal)) (cid m : PyVal) (gp : PyVal × List PyVal),
      gp ∈ grokAddToGroup gs cid m → ∀ x ∈ gp.2, (∃ gp2 ∈ gs, x ∈ gp2.2) ∨ x = m := by
  intro gs
  induction gs with
  | nil =>
      intro cid m gp hgp x hx
      simp only [grokAddToGroup, List.mem_singleton] at hgp
      subst hgp
      simp only [List.mem_singleton] at hx
      exact Or.inr hx
  | cons y ys ih =>
      intro cid m gp hgp x hx
      obtain ⟨k, ms⟩ := y
      simp only [grokAddToGroup] at hgp
      by_cases heq : pyEqV k cid = true
      · rw [if_pos heq] at hgp
        rcases List.mem_cons.mp hgp with h1 | h1
        · subst h1
          rcases List.mem_append.mp hx with h2 | h2
          · exact Or.inl ⟨(k, ms), by simp, h2⟩
          · simp only [List.mem_singleton] at h2
            exact Or.inr h2
        · exact Or.inl ⟨gp, by simp [h1], hx⟩
      · rw [if_neg heq] at hgp
        rcases List.mem_cons.mp hgp with h1 | h1
        · subst h1
          exact Or.inl ⟨(k, ms), by simp, hx⟩
        · rcases ih cid m gp h1 x hx with ⟨gp2, hmem, hx2⟩ | h2
          · exact Or.inl ⟨gp2, by simp [hmem], hx2⟩
          · exact Or.inr h2

theorem grokSpecGroup_members_aux :
    ∀ (xs : List PyVal) (g : List (PyVal × List PyVal)), grokFlatFieldsOk xs = true →
      (∀ gp ∈ g, ∀ m ∈ gp.2, grokMsgFieldsOk m = true) →
      ∀ gp ∈ xs.foldl (fun groups msg =>
          match msg with
          | PyVal.dict fs =>
              grokAddToGroup groups ((pyLookup fs "conversation_id").getD (.str "unknown")) msg
          | _ => groups) g,
        ∀ m ∈ gp.2, grokMsgFieldsOk m = true := by
  intro xs
  induction xs with
  | nil => intro g _ hg; exact hg
  | cons x xs ih =>
      intro g h hg
      simp only [grokFlatFieldsOk, List.all_cons, Bool.and_eq_true] at h
      have hxs : grokFlatFieldsOk xs = true := by simp [grokFlatFieldsOk, h.2]
      rw [List.foldl_cons]
      cases x with
      | dict fs =>
          have hok : grokMsgFieldsOk (PyVal.dict fs) = true := by
            have := h.1
            simp only [Bool.and_eq_true] at this
            exact this.1
          apply ih _ hxs
          intro gp hgp m hm
          rcases grokAddToGroup_mem g _ _ gp hgp m hm with ⟨gp2, hmem, hm2⟩ | heq
          · exact hg gp2 hmem m hm2
          · rw [heq]; exact hok
      | none => exact ih _ hxs hg
      | bool b => exact ih _ hxs hg
      | int n => exact ih _ hxs hg
      | str s => exact ih _ hxs hg
      | list l => exact ih _ hxs hg

theorem grokSpecGroup_members (xs : List PyVal) (h : grokFlatFieldsOk xs = true) :
    ∀ gp ∈ grokSpecGroup xs, ∀ m ∈ gp.2, grokMsgFieldsOk m = true := by
  unfold grokSpecGroup
  exact grokSpecGroup_members_aux xs [] h (by intro gp hgp; cases hgp)

theorem foldlM_congr {α β : Type} (f g : β → α → Except PyErr β) :
    ∀ (l : List α) (init : β), (∀ a ∈ l, ∀ b, f b a = g b a) →
      l.foldlM f init = l.foldlM g init := by
  intro l
  induction l with
  | nil => intro init _; rfl
  | cons x xs ih =>
      intro init h
      rw [List.foldlM_cons, List.foldlM_cons, h x (by simp) init]
      cases hgx : g init x with
      | error e => rfl
      | ok b =>
          show xs.foldlM f b = xs.foldlM g b
          exact ih b (fun a ha b2 => h a (by simp [ha]) b2)

/-- C7: for a Grok JSON document whose first array element carries
`conversation_id` but no `messages` (the flat shape) and whose elements
keep string-or-missing sort-key fields and hashable conversation ids,
`_parse_json_file` dispatches to the flat-message path, and that path
equals the specification's rendering: group by `conversation_id`
(first-seen order), sort each group string-lexicographically by
`timestamp` or `created_at` with missing keys as `""`, convert the
sorted group to Messages, and take the earliest resolvable message
timestamp as the conversation's `created_at`. -/
theorem grok_flat_refines_spec (xs : List PyVal)
    (h1 : grokFlatShape xs = true) (h2 : grokFlatFieldsOk xs = true) :
    grok_parse_json_data (PyVal.l xs) = grok_parse_flat_messages xs ∧
    grok_parse_flat_messages xs = grok_flat_spec xs := by
  constructor
  · unfold grok_parse_json_data PyVal.l
    dsimp only
    rw [PyList.toList_ofList]
    cases xs with
    | nil => simp [grokFlatShape] at h1
    | cons x rest =>
        cases x with
        | dict fs =>
            simp only [grokFlatShape] at h1
            dsimp only
            rw [if_pos h1]
        | none => simp [grokFlatShape] at h1
        | bool b => simp [grokFlatShape] at h1
        | int n => simp [grokFlatShape] at h1
        | str s => simp [grokFlatShape] at h1
        | list l => simp [grokFlatShape] at h1
  · have hgroups := grok_group_flat_spec xs h2
    have hmem := grokSpecGroup_members xs h2
    unfold grok_parse_flat_messages grok_flat_spec
    rw [hgroups]
    exact foldlM_congr _ _ (grokSpecGroup xs) [] (by
      intro gp hgp convs
      show (grokSortMsgs gp.2 >>= fun sorted => (collectSomeM grok_parse_message sorted >>=
        fun messages =>
          if messages.isEmpty then pure convs
          else do
            let first_ts ← grok_first_ts sorted
            pure (convs ++ [⟨sanitize_id gp.1, "grok", .str "Grok Conversation", first_ts,
              PyVal.none, messages, []⟩]))) = _
      rw [grokSortMsgs_spec gp.2 (hmem gp hgp)]
      rfl)

/-- Witness for C7: the concrete interleaved flat export satisfies both
hypotheses, the refinement holds on it, and the parsed output is the
two expected conversations (group order b, a; within a, the message
missing its key sorts first). -/
theorem grok_flat_refines_spec_witness :
    grokFlatShape grokFlatWitnessInput = true ∧
    grokFlatFieldsOk grokFlatWitnessInput = true ∧
    (grok_parse_json_data (PyVal.l grokFlatWitnessInput) =
        grok_parse_flat_messages grokFlatWitnessInput ∧
      grok_parse_flat_messages grokFlatWitnessInput = grok_flat_spec grokFlatWitnessInput) ∧
    (grok_flat_spec grokFlatWitnessInput).map
        (fun convs => convs.map (fun c => (c.id, c.messages.map Message.content))) =
      .ok [("b", ["m3"]), ("a", ["m1", "m2"])] :=
  ⟨rfl, rfl, grok_flat_refines_spec grokFlatWitnessInput rfl rfl, rfl⟩
